import Mathlib

/-!
Verification of the TinyGraphDB in-memory graph store (src/index.js).

The development embeds the store shallowly:

* JavaScript JSON-safe values are modelled by `JValue`; JS `undefined` is
  modelled as `Option.none` wherever a value may be absent.
* JS numbers are idealized as exact rationals (`ℚ`); `NaN` is modelled as
  `Option.none` in arithmetic positions.  Floating-point rounding and
  infinities are idealized away; `Math.sqrt` appears only in theorem
  statements, as `Real.sqrt`.
* JS `Map` is modelled by an insertion-ordered association list (`JMap`)
  whose `set` updates an existing key in place and appends a fresh key,
  exactly as JS `Map.prototype.set` does; JS `Set` is modelled by an
  insertion-ordered duplicate-free list.
* Ids produced by `generateId` are modelled by the per-store counter alone
  (the `Date.now()` prefix never disambiguates two ids with distinct
  counters, so equality of ids coincides with equality of counters).
* Functions that can throw are modelled in `Except String`.
-/

/-- A JSON-safe JavaScript value (the payloads stored in `metadata`). -/
inductive JValue where
  | null : JValue
  | bool (b : Bool) : JValue
  | num (q : ℚ) : JValue
  | str (s : String) : JValue
  | arr (xs : List JValue) : JValue
  | obj (fields : List (String × JValue)) : JValue

/-- A primitive (non-object) JSON value; JS strict equality on these is
structural, so literal condition values are restricted to primitives. -/
inductive JPrim where
  | null : JPrim
  | bool (b : Bool) : JPrim
  | num (q : ℚ) : JPrim
  | str (s : String) : JPrim
deriving Repr, DecidableEq

/-- Embed a primitive into `JValue`. -/
def JPrim.toJValue : JPrim → JValue
  | .null => .null
  | .bool b => .bool b
  | .num q => .num q
  | .str s => .str s

/-- Numeric value of a digit string, `none` if a non-digit occurs. -/
def digitsVal (l : List Char) : Option Nat :=
  if l.all Char.isDigit then
    some (l.foldl (fun acc c => acc * 10 + (c.toNat - 48)) 0)
  else none

/-- JS whitespace (the common cases). -/
def isJsSpace (c : Char) : Bool :=
  c == ' ' || c == '\t' || c == '\n' || c == '\r'

/-- JS `String.prototype.trim` (structurally recursive, unlike the
iterator-based core `String.trim`). -/
def jsTrim (s : String) : String :=
  String.mk (((s.toList.dropWhile isJsSpace).reverse.dropWhile isJsSpace).reverse)

/-- JS `ToNumber` on a (trimmed, unsigned) string body: digits, optionally
split by a single dot.  Exponent, hex and `Infinity` forms are outside the
modelled fragment (no theorem depends on string-to-number coercion). -/
def parseUnsignedNumber (l : List Char) : Option ℚ :=
  match l.splitOn '.' with
  | [intPart] =>
    if intPart.isEmpty then none
    else (digitsVal intPart).map (fun v => (v : ℚ))
  | [intPart, fracPart] =>
    if intPart.isEmpty && fracPart.isEmpty then none
    else
      match digitsVal intPart, digitsVal fracPart with
      | some i, some f => some ((i : ℚ) + (f : ℚ) / (10 : ℚ) ^ fracPart.length)
      | _, _ => none
  | _ => none

/-- JS `ToNumber` applied to a string: trimmed-empty is `0`, otherwise an
optionally signed decimal; anything else is `NaN` (`none`). -/
def jsStringToNumber (s : String) : Option ℚ :=
  match (jsTrim s).toList with
  | [] => some 0
  | '-' :: rest => (parseUnsignedNumber rest).map (fun q => -q)
  | '+' :: rest => parseUnsignedNumber rest
  | l => parseUnsignedNumber l

/-- Multiplicity of a prime factor `p` in `n` (used to render finite decimal
expansions). -/
def factorCount (p n : Nat) : Nat :=
  if h : 2 ≤ p ∧ 0 < n ∧ n % p = 0 then
    have : n / p < n := Nat.div_lt_self h.2.1 (by omega)
    1 + factorCount p (n / p)
  else 0

/-- Render an integer the way JS renders integral numbers. -/
def jsIntToString (n : ℤ) : String :=
  if n < 0 then "-" ++ toString (-n).toNat else toString n.toNat

/-- Decimal digits of a fractional part, zero-padded to `k` places. -/
def fracDigits (num : Nat) (k : Nat) : String :=
  let s := toString num
  let pad := String.mk (List.replicate (k - s.length) '0')
  pad ++ s

/-- Render a nonnegative rational the way JS renders the corresponding
number.  Exact for integers and for fractions with a `2^a * 5^b`
denominator; other denominators (unreachable from JS doubles under the
idealization) fall back to a fraction notation. -/
def jsNumToStringNN (q : ℚ) : String :=
  if q.den = 1 then jsIntToString q.num
  else
    let a := factorCount 2 q.den
    let b := factorCount 5 q.den
    if q.den = 2 ^ a * 5 ^ b then
      let k := max a b
      let scaled := q.num.toNat * (10 ^ k / q.den)
      jsIntToString ((scaled / 10 ^ k : ℕ) : ℤ) ++ "." ++ fracDigits (scaled % 10 ^ k) k
    else jsIntToString q.num ++ "/" ++ toString q.den

/-- Render a rational the way JS renders the corresponding number. -/
def jsNumToString (q : ℚ) : String :=
  if q < 0 then "-" ++ jsNumToStringNN (-q) else jsNumToStringNN q

mutual

/-- JS `ToString` for the modelled values (as used by `String(value)` in the
metadata string operators). -/
def jsToString : JValue → String
  | .null => "null"
  | .bool b => if b then "true" else "false"
  | .num q => jsNumToString q
  | .str s => s
  | .arr xs => jsArrToString xs
  | .obj _ => "[object Object]"

/-- JS array-to-string: elements joined by commas, `null` rendered empty. -/
def jsArrToString : List JValue → String
  | [] => ""
  | [x] => jsElemToString x
  | x :: xs => jsElemToString x ++ "," ++ jsArrToString xs

/-- Inside `Array.prototype.join`, `null` becomes the empty string. -/
def jsElemToString : JValue → String
  | .null => ""
  | v => jsToString v

end

/-- JS `ToNumber`; `none` is `NaN`. -/
def jsToNumber : JValue → Option ℚ
  | .null => some 0
  | .bool b => some (if b then 1 else 0)
  | .num q => some q
  | .str s => jsStringToNumber s
  | .arr xs => jsStringToNumber (jsArrToString xs)
  | .obj _ => none

/-- JS `ToNumber` where the argument may be `undefined` (`undefined` is
`NaN`). -/
def jsToNumberU : Option JValue → Option ℚ
  | none => none
  | some v => jsToNumber v

/-- Outcome of a JS relational comparison (`<`, `<=`, `>`, `>=`) between two
possibly-`undefined` values: `none` when a `NaN` is involved (all four
comparisons are then false), otherwise the ordering.  Two strings compare
lexicographically; any other pair compares numerically via `ToNumber`. -/
def jsCompare (a b : Option JValue) : Option Ordering :=
  match a, b with
  | some (.str s1), some (.str s2) => some (compare s1 s2)
  | _, _ =>
    match jsToNumberU a, jsToNumberU b with
    | some q1, some q2 => some (compare q1 q2)
    | _, _ => none

/-- JS `a <= b` (false on `NaN`). -/
def jsLe (a b : Option JValue) : Bool :=
  match jsCompare a b with
  | some .lt => true
  | some .eq => true
  | _ => false

/-- JS `a < b` (false on `NaN`). -/
def jsLt (a b : Option JValue) : Bool :=
  jsCompare a b == some .lt

/-- JS `a >= b` (false on `NaN`). -/
def jsGe (a b : Option JValue) : Bool :=
  match jsCompare a b with
  | some .gt => true
  | some .eq => true
  | _ => false

/-- JS `a > b` (false on `NaN`). -/
def jsGt (a b : Option JValue) : Bool :=
  jsCompare a b == some .gt

/-- Case-insensitive substring test, as in
`haystack.toLowerCase().includes(needle.toLowerCase())`. -/
def jsContainsCI (haystack needle : String) : Bool :=
  decide (needle.toLower.toList <:+: haystack.toLower.toList)

/-- Case-sensitive substring test, as in `haystack.includes(needle)`. -/
def jsContains (haystack needle : String) : Bool :=
  decide (needle.toList <:+: haystack.toList)

/-- JS `String.prototype.startsWith` (case-sensitive prefix test). -/
def jsStartsWith (s pre : String) : Bool :=
  decide (pre.toList <+: s.toList)

/-- JS `String.prototype.endsWith` (case-sensitive suffix test). -/
def jsEndsWith (s suf : String) : Bool :=
  decide (suf.toList <:+ s.toList)

/-- JS strict equality `===` between modelled values: structural on
primitives; `false` on array/object pairs, because a stored metadata value
(deep-cloned on write) is never reference-equal to a condition value. -/
def jsStrictEq : JValue → JValue → Bool
  | .null, .null => true
  | .bool a, .bool b => a == b
  | .num a, .num b => a == b
  | .str a, .str b => a == b
  | _, _ => false

/-- JS strict equality where either side may be `undefined`. -/
def jsStrictEqU : Option JValue → Option JValue → Bool
  | none, none => true
  | some a, some b => jsStrictEq a b
  | _, _ => false

/-! ## Insertion-ordered maps and sets (JS `Map` / `Set`) -/

/-- An insertion-ordered association list modelling a JS `Map`. -/
abbrev JMap (α β : Type) : Type := List (α × β)

/-- `Map.prototype.get`. -/
def JMap.get {α β : Type} [DecidableEq α] (m : JMap α β) (k : α) : Option β :=
  match m with
  | [] => none
  | (k0, v) :: rest => if k0 = k then some v else JMap.get rest k

/-- `Map.prototype.has`. -/
def JMap.hasKey {α β : Type} [DecidableEq α] (m : JMap α β) (k : α) : Bool :=
  match m with
  | [] => false
  | (k0, _) :: rest => if k0 = k then true else JMap.hasKey rest k

/-- `Map.prototype.set`: update an existing key in place, append a fresh
key at the end. -/
def JMap.set {α β : Type} [DecidableEq α] (m : JMap α β) (k : α) (v : β) : JMap α β :=
  if JMap.hasKey m k then m.map (fun p => if p.1 = k then (k, v) else p)
  else m ++ [(k, v)]

/-- `Map.prototype.delete` (order of remaining entries preserved). -/
def JMap.del {α β : Type} [DecidableEq α] (m : JMap α β) (k : α) : JMap α β :=
  m.filter (fun p => p.1 ≠ k)

/-- The keys, in insertion order. -/
def JMap.keys {α β : Type} (m : JMap α β) : List α := m.map Prod.fst

/-- The values, in insertion order (`Map.prototype.values`). -/
def JMap.values {α β : Type} (m : JMap α β) : List β := m.map Prod.snd

/-- An insertion-ordered duplicate-free list modelling a JS `Set`. -/
abbrev JSet (α : Type) : Type := List α

/-- `Set.prototype.add`: append if absent. -/
def JSet.add {α : Type} [DecidableEq α] (s : JSet α) (x : α) : JSet α :=
  if x ∈ s then s else s ++ [x]

/-- `Set.prototype.delete` (order of remaining elements preserved). -/
def JSet.del {α : Type} [DecidableEq α] (s : JSet α) (x : α) : JSet α :=
  s.filter (fun y => y ≠ x)

/-! ## The data model (`nodes`, `relations`, `nodeRelations`) -/

/-- A node record `{id, name, metadata}`. -/
structure Node where
  id : Nat
  name : String
  metadata : List (String × JValue)

/-- A relation record `{id, name, fromNodeId, toNodeId, metadata}`. -/
structure Relation where
  id : Nat
  name : String
  fromNodeId : Nat
  toNodeId : Nat
  metadata : List (String × JValue)

/-- The mutable state of a `TinyGraphDB` instance.  `flushToDisk` only
serializes this state (persistence is outside the verified core), so it is
modelled as a no-op. -/
structure GraphState where
  nodes : JMap Nat Node
  relations : JMap Nat Relation
  nodeRelations : JMap Nat (JSet Nat)
  idCounter : Nat

/-- The state of a freshly constructed store with no snapshot on disk. -/
def emptyStore : GraphState :=
  { nodes := [], relations := [], nodeRelations := [], idCounter := 0 }

/-- Metadata lookup `metadata[key]` (`none` is `undefined`). -/
def metaGet (md : List (String × JValue)) (k : String) : Option JValue :=
  match md with
  | [] => none
  | (k0, v) :: rest => if k0 = k then some v else metaGet rest k

/-- Spread-merge `{...old, ...new}`: keys of `old` in order (values
overridden by `new` where present), then fresh keys of `new` in order. -/
def spreadMerge (old nw : List (String × JValue)) : List (String × JValue) :=
  old.map (fun p => match metaGet nw p.1 with
    | some v => (p.1, v)
    | none => p) ++
  nw.filter (fun p => (metaGet old p.1).isNone)

/-- `rebuildNodeRelationsIndex`, step 2: add `relation.id` to the incident
sets of both endpoints.  JS throws a `TypeError` when an endpoint has no
entry in the index (modelled as `none`). -/
def populateIndex (m : JMap Nat (JSet Nat)) (rels : List Relation) :
    Option (JMap Nat (JSet Nat)) :=
  match rels with
  | [] => some m
  | rel :: rest =>
    match JMap.get m rel.fromNodeId with
    | none => none
    | some sFrom =>
      let m1 := JMap.set m rel.fromNodeId (JSet.add sFrom rel.id)
      match JMap.get m1 rel.toNodeId with
      | none => none
      | some sTo => populateIndex (JMap.set m1 rel.toNodeId (JSet.add sTo rel.id)) rest

/-- `rebuildNodeRelationsIndex()`: clear, seed an empty set per node, then
populate from the relations. -/
def rebuildNodeRelationsIndex (nodes : JMap Nat Node) (relations : JMap Nat Relation) :
    Option (JMap Nat (JSet Nat)) :=
  let seeded := (JMap.keys nodes).foldl (fun m k => JMap.set m k []) []
  populateIndex seeded (JMap.values relations)

/-- `generateId()`: the timestamp-prefixed counter, modelled by the counter. -/
def generateId (s : GraphState) : Nat × GraphState :=
  (s.idCounter, { s with idCounter := s.idCounter + 1 })

/-- `addNode(name, metadata)`.  Metadata is typed as a JSON object here, so
only the name validation can fail; `_clone` is the identity on values. -/
def addNode (s : GraphState) (name : String) (metadata : List (String × JValue)) :
    Except String (GraphState × Node) :=
  if jsTrim name = "" then .error "Node name must be a non-empty string"
  else
    let (nid, s1) := generateId s
    let node : Node := { id := nid, name := name, metadata := metadata }
    .ok ({ s1 with
            nodes := JMap.set s1.nodes nid node,
            nodeRelations := JMap.set s1.nodeRelations nid [] }, node)

/-- `addRelation(name, fromNodeId, toNodeId, metadata)`.  The unguarded
`nodeRelations.get(...).add(...)` throws when the index lacks an endpoint
entry; that path is modelled as an error (unreachable from valid states). -/
def addRelation (s : GraphState) (name : String) (fromNodeId toNodeId : Nat)
    (metadata : List (String × JValue)) : Except String (GraphState × Relation) :=
  if ¬ (JMap.hasKey s.nodes fromNodeId ∧ JMap.hasKey s.nodes toNodeId) then
    .error "Both nodes must exist before creating a relation"
  else
    let (rid, s1) := generateId s
    let rel : Relation :=
      { id := rid, name := name, fromNodeId := fromNodeId, toNodeId := toNodeId,
        metadata := metadata }
    match JMap.get s1.nodeRelations fromNodeId with
    | none => .error "TypeError: nodeRelations entry missing"
    | some sFrom =>
      let idx1 := JMap.set s1.nodeRelations fromNodeId (JSet.add sFrom rid)
      match JMap.get idx1 toNodeId with
      | none => .error "TypeError: nodeRelations entry missing"
      | some sTo =>
        .ok ({ s1 with
                relations := JMap.set s1.relations rid rel,
                nodeRelations := JMap.set idx1 toNodeId (JSet.add sTo rid) }, rel)

/-- `deleteNode(nodeId)`: delete the incident relations, scrub their ids
from every other node's set, then drop the node and its index entry. -/
def deleteNode (s : GraphState) (nodeId : Nat) : Except String (GraphState × Node) :=
  match JMap.get s.nodes nodeId with
  | none => .error ("Node with id " ++ toString nodeId ++ " not found")
  | some node =>
    let relationIds : JSet Nat := (JMap.get s.nodeRelations nodeId).getD []
    let relations1 := relationIds.foldl (fun m rid => JMap.del m rid) s.relations
    let index1 : JMap Nat (JSet Nat) := s.nodeRelations.map (fun p =>
      if p.1 = nodeId then p
      else (p.1, relationIds.foldl (fun st rid => JSet.del st rid) p.2))
    .ok ({ s with
            nodes := JMap.del s.nodes nodeId,
            relations := relations1,
            nodeRelations := JMap.del index1 nodeId }, node)

/-- `deleteRelation(relationId)`: detach from both endpoints' sets (the
optional chaining skips a missing index entry), then delete the relation. -/
def deleteRelation (s : GraphState) (relationId : Nat) :
    Except String (GraphState × Relation) :=
  match JMap.get s.relations relationId with
  | none => .error ("Relation with id " ++ toString relationId ++ " not found")
  | some rel =>
    let adjust := fun (m : JMap Nat (JSet Nat)) (k : Nat) =>
      m.map (fun p => if p.1 = k then (p.1, JSet.del p.2 relationId) else p)
    let idx1 := adjust (adjust s.nodeRelations rel.fromNodeId) rel.toNodeId
    .ok ({ s with
            relations := JMap.del s.relations relationId,
            nodeRelations := idx1 }, rel)

/-- An update object `{name?, metadata?}` (`none` is an absent property). -/
structure UpdateSpec where
  name : Option String := none
  metadata : Option (List (String × JValue)) := none

/-- `updateNode(nodeId, updates)`: name is replaced, metadata shallow-merged. -/
def updateNode (s : GraphState) (nodeId : Nat) (updates : UpdateSpec) :
    Except String (GraphState × Node) :=
  match JMap.get s.nodes nodeId with
  | none => .error ("Node with id " ++ toString nodeId ++ " not found")
  | some node =>
    let node1 := match updates.name with
      | some n => { node with name := n }
      | none => node
    let node2 := match updates.metadata with
      | some md => { node1 with metadata := spreadMerge node1.metadata md }
      | none => node1
    .ok ({ s with nodes := JMap.set s.nodes nodeId node2 }, node2)

/-- `updateRelation(relationId, updates)`. -/
def updateRelation (s : GraphState) (relationId : Nat) (updates : UpdateSpec) :
    Except String (GraphState × Relation) :=
  match JMap.get s.relations relationId with
  | none => .error ("Relation with id " ++ toString relationId ++ " not found")
  | some rel =>
    let rel1 := match updates.name with
      | some n => { rel with name := n }
      | none => rel
    let rel2 := match updates.metadata with
      | some md => { rel1 with metadata := spreadMerge rel1.metadata md }
      | none => rel1
    .ok ({ s with relations := JMap.set s.relations relationId rel2 }, rel2)

/-- The in-memory snapshot produced by `exportData()`. -/
structure ExportedData where
  nodes : List Node
  relations : List Relation

/-- `exportData()`: a pure dump of the two entity maps. -/
def exportData (s : GraphState) : ExportedData :=
  { nodes := JMap.values s.nodes, relations := JMap.values s.relations }

/-- `importData(data)`: clear all three maps, re-insert the supplied nodes
and relations keyed by their own ids, then rebuild the index (which throws
on a dangling endpoint). -/
def importData (s : GraphState) (data : ExportedData) : Except String GraphState :=
  let nodes1 := data.nodes.foldl (fun m n => JMap.set m n.id n) []
  let relations1 := data.relations.foldl (fun m r => JMap.set m r.id r) []
  match rebuildNodeRelationsIndex nodes1 relations1 with
  | none => .error "TypeError: nodeRelations entry missing"
  | some idx =>
    .ok { s with nodes := nodes1, relations := relations1, nodeRelations := idx }

/-! ## Operation sequences (for the index invariant) -/

/-- One mutating call from the claim C1 family. -/
inductive Op where
  | addNode (name : String) (metadata : List (String × JValue))
  | addRelation (name : String) (fromNodeId toNodeId : Nat)
      (metadata : List (String × JValue))
  | deleteNode (nodeId : Nat)
  | deleteRelation (relationId : Nat)

/-- Apply one operation, discarding the returned entity. -/
def applyOp (s : GraphState) : Op → Except String GraphState
  | .addNode name md => (addNode s name md).map Prod.fst
  | .addRelation name f t md => (addRelation s name f t md).map Prod.fst
  | .deleteNode nid => (deleteNode s nid).map Prod.fst
  | .deleteRelation rid => (deleteRelation s rid).map Prod.fst

/-- Run a sequence of operations; a sequence is valid when this is `.ok`. -/
def runOps (s : GraphState) : List Op → Except String GraphState
  | [] => .ok s
  | op :: rest => (applyOp s op).bind (fun s1 => runOps s1 rest)

/-! ## Cosine similarity (`cosineSimilarity`, similarity searches)

The outcome of `cosineSimilarity` is represented symbolically: `ratio d a b`
stands for the float `d / (Math.sqrt a * Math.sqrt b)`.  Comparisons against
a float `y / Math.sqrt q` are decided exactly over `ℚ` by `ratGe`, which is
proved below (`ratGe_iff`) to agree with the real-number comparison. -/

/-- Addition where `none` is `NaN`. -/
def optAdd : Option ℚ → Option ℚ → Option ℚ
  | some a, some b => some (a + b)
  | _, _ => none

/-- Multiplication where `none` is `NaN`. -/
def optMul : Option ℚ → Option ℚ → Option ℚ
  | some a, some b => some (a * b)
  | _, _ => none

/-- The running sum `acc += f(0); ...; acc += f(n-1)` of the JS `for` loop. -/
def sumLoop (f : Nat → Option ℚ) : Nat → Option ℚ
  | 0 => some 0
  | n + 1 => optAdd (sumLoop f n) (f n)

/-- `vecA[i] * vecB[i]` with JS `ToNumber` coercion on each operand. -/
def jsMulAt (a b : List JValue) (i : Nat) : Option ℚ :=
  optMul (jsToNumberU (a.get? i)) (jsToNumberU (b.get? i))

/-- Symbolic outcome of `cosineSimilarity`. -/
inductive CosResult where
  | err (msg : String)
  | zero
  | nan
  | ratio (dot magSqA magSqB : ℚ)
deriving Repr, DecidableEq

/-- The JS test `Math.sqrt(q) === 0`: true exactly at `q = 0` (for `q < 0`
the square root is `NaN`, which is not `0`; `NaN` input gives `NaN`). -/
def sqrtIsZero : Option ℚ → Bool
  | some q => q == 0
  | none => false

/-- `cosineSimilarity(vecA, vecB)`: array guard, length guard, empty-length
shortcut, one accumulation loop, zero-magnitude shortcut. -/
def cosineSimilarity (vecA vecB : Option JValue) : CosResult :=
  match vecA, vecB with
  | some (.arr a), some (.arr b) =>
    if a.length ≠ b.length then .err "Vectors must have the same length"
    else if a.length = 0 then .zero
    else
      let dot := sumLoop (jsMulAt a b) a.length
      let mA := sumLoop (jsMulAt a a) a.length
      let mB := sumLoop (jsMulAt b b) a.length
      if sqrtIsZero mA || sqrtIsZero mB then .zero
      else
        match dot, mA, mB with
        | some d, some x, some y => .ratio d x y
        | _, _, _ => .nan
  | _, _ => .err "Both vectors must be arrays"

/-- Decide `x / √p ≥ y / √q` for positive rationals `p`, `q` by sign
analysis and squaring (see `ratGe_iff`). -/
def ratGe (x p y q : ℚ) : Bool :=
  if 0 ≤ x then
    if y ≤ 0 then true else decide (y ^ 2 * p ≤ x ^ 2 * q)
  else
    if 0 ≤ y then false else decide (x ^ 2 * q ≤ y ^ 2 * p)

/-- A similarity value `d / (√a * √b)` represented as the pair
`(d, a * b)`. -/
abbrev SimVal : Type := ℚ × ℚ

/-- The float comparison `similarity >= threshold`. -/
def simGeB (v : SimVal) (t : ℚ) : Bool := ratGe v.1 v.2 t 1

/-- The float comparison `simA >= simB` (as used by the descending sort
comparator `(a, b) => b.similarity - a.similarity`). -/
def simAtLeastB (v w : SimVal) : Bool := ratGe v.1 v.2 w.1 w.2

/-- `Array.isArray(x) && x.length !== 0` for a possibly-undefined value. -/
def isNonEmptyArrayU : Option JValue → Bool
  | some (.arr (_ :: _)) => true
  | _ => false

/-- `Array.isArray(x)` for a possibly-undefined value. -/
def isArrayU : Option JValue → Bool
  | some (.arr _) => true
  | _ => false

/-- The `nodes.forEach` accumulation of `searchNodesByCosineSimilarity`:
skip entities without an array under the embedding key, score the rest,
keep those meeting the threshold; a length mismatch throws out of the
whole loop. -/
def collectSimNodes (q : Option JValue) (key : String) (t : ℚ) :
    List Node → Except String (List (Node × SimVal))
  | [] => .ok []
  | node :: rest =>
    let emb := metaGet node.metadata key
    if isArrayU emb then
      match cosineSimilarity q emb with
      | .err m => .error m
      | .zero =>
        if simGeB (0, 1) t then
          (collectSimNodes q key t rest).map (fun l => (node, ((0 : ℚ), (1 : ℚ))) :: l)
        else collectSimNodes q key t rest
      | .nan => collectSimNodes q key t rest
      | .ratio d a b =>
        if simGeB (d, a * b) t then
          (collectSimNodes q key t rest).map (fun l => (node, (d, a * b)) :: l)
        else collectSimNodes q key t rest
    else collectSimNodes q key t rest

/-- Same accumulation for relations. -/
def collectSimRelations (q : Option JValue) (key : String) (t : ℚ) :
    List Relation → Except String (List (Relation × SimVal))
  | [] => .ok []
  | rel :: rest =>
    let emb := metaGet rel.metadata key
    if isArrayU emb then
      match cosineSimilarity q emb with
      | .err m => .error m
      | .zero =>
        if simGeB (0, 1) t then
          (collectSimRelations q key t rest).map (fun l => (rel, ((0 : ℚ), (1 : ℚ))) :: l)
        else collectSimRelations q key t rest
      | .nan => collectSimRelations q key t rest
      | .ratio d a b =>
        if simGeB (d, a * b) t then
          (collectSimRelations q key t rest).map (fun l => (rel, (d, a * b)) :: l)
        else collectSimRelations q key t rest
    else collectSimRelations q key t rest

/-- Stable insertion keeping the list sorted by descending similarity
(ties keep earlier elements first, like the spec-mandated stable
`Array.prototype.sort`). -/
def insertDesc {α : Type} (x : α × SimVal) : List (α × SimVal) → List (α × SimVal)
  | [] => [x]
  | y :: ys => if simAtLeastB y.2 x.2 then y :: insertDesc x ys else x :: y :: ys

/-- Stable descending sort by similarity (`.sort((a, b) => b.similarity -
a.similarity)`). -/
def sortBySimDesc {α : Type} (l : List (α × SimVal)) : List (α × SimVal) :=
  l.foldl (fun acc x => insertDesc x acc) []

/-- Options of the two similarity searches, with their destructuring
defaults. -/
structure SimSearchOptions where
  embeddingKey : String := "embedding"
  threshold : ℚ := 1 / 2
  limit : Nat := 10

/-- `searchNodesByCosineSimilarity(queryEmbedding, options)`. -/
def searchNodesByCosineSimilarity (s : GraphState) (q : Option JValue)
    (opts : SimSearchOptions) : Except String (List (Node × SimVal)) :=
  if ¬ isNonEmptyArrayU q then .error "Query embedding must be a non-empty array"
  else
    (collectSimNodes q opts.embeddingKey opts.threshold (JMap.values s.nodes)).map
      (fun results => (sortBySimDesc results).take opts.limit)

/-- `searchRelationsByCosineSimilarity(queryEmbedding, options)`. -/
def searchRelationsByCosineSimilarity (s : GraphState) (q : Option JValue)
    (opts : SimSearchOptions) : Except String (List (Relation × SimVal)) :=
  if ¬ isNonEmptyArrayU q then .error "Query embedding must be a non-empty array"
  else
    (collectSimRelations q opts.embeddingKey opts.threshold (JMap.values s.relations)).map
      (fun results => (sortBySimDesc results).take opts.limit)

/-! ## The predicate engine (`matchesConditions`, `matchesMetadataConditions`)

Condition trees are dynamic JS objects; they are embedded as tagged lists
that preserve key order.  Each JS condition key maps to the constructor for
its branch of the `if`-chain; keys outside the recognized set map to
`CondEntry.extra`.  Regular-expression name conditions are outside the
modelled fragment (no claim concerns them). -/

/-- The object argument of a top-level `cosineSimilarity` condition, with
`undefined` fields as `none` (defaults applied at the use site, as in the
source's destructuring). -/
structure CosCond where
  queryEmbedding : Option JValue := none
  embeddingKey : Option String := none
  threshold : Option ℚ := none

/-- The object argument of a metadata-level `cosineSimilarity` operator
(no `embeddingKey`; the stored value itself is the vector). -/
structure CosCondM where
  queryEmbedding : Option JValue := none
  threshold : Option ℚ := none

/-- A metadata operator object; an absent property is `none`.  `inVals`
models the `in` operator (a reserved word in Lean). -/
structure OpCond where
  eq : Option JValue := none
  ne : Option JValue := none
  gt : Option JValue := none
  gte : Option JValue := none
  lt : Option JValue := none
  lte : Option JValue := none
  contains : Option JValue := none
  startsWith : Option JValue := none
  endsWith : Option JValue := none
  inVals : Option (List JValue) := none
  cosineSimilarity : Option CosCondM := none

/-- A per-key metadata condition: a primitive literal (strict equality) or
an operator object. -/
inductive MetaCondVal where
  | lit (p : JPrim)
  | ops (o : OpCond)

/-- The value under a `name` condition key: an exact string, an object with
a `contains` property, or any other value (on which no check applies). -/
inductive NameCondVal where
  | str (s : String)
  | containsObj (sub : String)
  | other (v : JValue)

/-- One top-level condition entry (one key of the JS condition object). -/
inductive CondEntry where
  | id (n : Nat)
  | name (v : NameCondVal)
  | fromNodeId (n : Nat)
  | toNodeId (n : Nat)
  | metadata (cs : List (String × MetaCondVal))
  | cosineSimilarity (c : CosCond)
  | extra (key : String) (v : JValue)

/-- `String(value)` where the value may be `undefined`. -/
def jsToStringU : Option JValue → String
  | none => "undefined"
  | some v => jsToString v

/-- A node or a relation, as fed to the generic predicate functions. -/
inductive Entity where
  | node (n : Node)
  | rel (r : Relation)

/-- `entity.id`. -/
def Entity.id : Entity → Nat
  | .node n => n.id
  | .rel r => r.id

/-- `entity.name`. -/
def Entity.name : Entity → String
  | .node n => n.name
  | .rel r => r.name

/-- `entity.metadata`. -/
def Entity.metadata : Entity → List (String × JValue)
  | .node n => n.metadata
  | .rel r => r.metadata

/-- `entity.fromNodeId` (`undefined` on a node). -/
def Entity.fromNodeIdU : Entity → Option Nat
  | .node _ => none
  | .rel r => some r.fromNodeId

/-- `entity.toNodeId` (`undefined` on a node). -/
def Entity.toNodeIdU : Entity → Option Nat
  | .node _ => none
  | .rel r => some r.toNodeId

/-- `matchesMetadataConditions(metadata, conditions)`: the operator checks
in source order, each returning `false` on failure; the
`cosineSimilarity` operator can throw on a length mismatch. -/
def matchesMetadataConditions (md : List (String × JValue)) :
    List (String × MetaCondVal) → Except String Bool
  | [] => .ok true
  | (key, cond) :: rest =>
    let value := metaGet md key
    match cond with
    | .lit p =>
      if jsStrictEqU value (some p.toJValue) then matchesMetadataConditions md rest
      else .ok false
    | .ops o =>
      if o.eq.isSome && ! jsStrictEqU value o.eq then .ok false
      else if o.ne.isSome && jsStrictEqU value o.ne then .ok false
      else if o.gt.isSome && jsLe value o.gt then .ok false
      else if o.gte.isSome && jsLt value o.gte then .ok false
      else if o.lt.isSome && jsGe value o.lt then .ok false
      else if o.lte.isSome && jsGt value o.lte then .ok false
      else if o.contains.isSome &&
          ! jsContainsCI (jsToStringU value) (jsToStringU o.contains) then .ok false
      else if o.startsWith.isSome &&
          ! jsStartsWith (jsToStringU value) (jsToStringU o.startsWith) then .ok false
      else if o.endsWith.isSome &&
          ! jsEndsWith (jsToStringU value) (jsToStringU o.endsWith) then .ok false
      else if o.inVals.isSome &&
          ! (o.inVals.getD []).any (fun c => jsStrictEqU (some c) value) then .ok false
      else
        match o.cosineSimilarity with
        | none => matchesMetadataConditions md rest
        | some cc =>
          if ! isArrayU value || ! isArrayU cc.queryEmbedding then .ok false
          else
            match cosineSimilarity cc.queryEmbedding value with
            | .err m => .error m
            | .zero =>
              if 0 < cc.threshold.getD (1 / 2) then .ok false
              else matchesMetadataConditions md rest
            | .nan => matchesMetadataConditions md rest
            | .ratio d a b =>
              if ratGe d (a * b) (cc.threshold.getD (1 / 2)) 1 then
                matchesMetadataConditions md rest
              else .ok false

/-- `matchesConditions(entity, conditions)`: dispatch per condition key in
object order; unrecognized keys are skipped. -/
def matchesConditions (e : Entity) : List CondEntry → Except String Bool
  | [] => .ok true
  | c :: rest =>
    match c with
    | .metadata cs =>
      (matchesMetadataConditions (Entity.metadata e) cs).bind
        (fun b => if b then matchesConditions e rest else .ok false)
    | .cosineSimilarity cc =>
      let t := cc.threshold.getD (1 / 2)
      let embedding := metaGet (Entity.metadata e) (cc.embeddingKey.getD "embedding")
      if ! isArrayU embedding then .ok false
      else
        match cosineSimilarity cc.queryEmbedding embedding with
        | .err m => .error m
        | .zero => if 0 < t then .ok false else matchesConditions e rest
        | .nan => matchesConditions e rest
        | .ratio d a b =>
          if ratGe d (a * b) t 1 then matchesConditions e rest else .ok false
    | .name nv =>
      match nv with
      | .str s => if Entity.name e = s then matchesConditions e rest else .ok false
      | .containsObj sub =>
        if sub = "" then matchesConditions e rest
        else if jsContainsCI (Entity.name e) sub then matchesConditions e rest
        else .ok false
      | .other _ => matchesConditions e rest
    | .id n => if Entity.id e = n then matchesConditions e rest else .ok false
    | .fromNodeId n =>
      match Entity.fromNodeIdU e with
      | some f => if f = n then matchesConditions e rest else .ok false
      | none => .ok false
    | .toNodeId n =>
      match Entity.toNodeIdU e with
      | some t => if t = n then matchesConditions e rest else .ok false
      | none => .ok false
    | .extra _ _ => matchesConditions e rest

/-- The `nodes.forEach` filter of `searchNodes`. -/
def searchNodesGo (conds : List CondEntry) : List Node → Except String (List Node)
  | [] => .ok []
  | n :: rest =>
    (matchesConditions (.node n) conds).bind (fun b =>
      (searchNodesGo conds rest).map (fun l => if b then n :: l else l))

/-- `searchNodes(conditions)`. -/
def searchNodes (s : GraphState) (conds : List CondEntry) : Except String (List Node) :=
  searchNodesGo conds (JMap.values s.nodes)

/-- The `relations.forEach` filter of `searchRelations`. -/
def searchRelationsGo (conds : List CondEntry) : List Relation → Except String (List Relation)
  | [] => .ok []
  | r :: rest =>
    (matchesConditions (.rel r) conds).bind (fun b =>
      (searchRelationsGo conds rest).map (fun l => if b then r :: l else l))

/-- `searchRelations(conditions)`. -/
def searchRelations (s : GraphState) (conds : List CondEntry) :
    Except String (List Relation) :=
  searchRelationsGo conds (JMap.values s.relations)

/-! ## The traversal engine (`traverseFromNode`, `traverseFromRelation`)

The recursive closures are modelled with an explicit fuel argument; the
fuel-independence theorem for claim C2 is exactly the termination of the
JS recursion.  `traverseFromNode`'s result triplets carry the current node
as an `Option` because the source pushes `this.nodes.get(nodeId)`
unguarded (it can be `undefined` only for a nonexistent start node). -/

/-- A traversal direction. -/
inductive Dir where
  | outgoing
  | incoming
deriving Repr, DecidableEq

/-- One emitted `[currentNode, relation, otherNode]` triplet. -/
abbrev Triplet : Type := Option Node × Relation × Node

/-- The mutable state of one `traverseFromNode` call. -/
structure TravState where
  visitedNodes : List Nat
  visitedRelations : List Nat
  result : List Triplet

/-- Options of `traverseFromNode` with their defaults (`none` for
`maxDepth` is `Infinity`). -/
structure TraverseOptions where
  maxDepth : Option Nat := none
  directions : List Dir := [.outgoing, .incoming]
  relationName : Option String := none

/-- `depth > maxDepth`, false at `Infinity`. -/
def depthExceeds (maxDepth : Option Nat) (depth : Nat) : Bool :=
  match maxDepth with
  | none => false
  | some m => depth > m

/-- Truthiness of the `relationName` option (both `null` and the empty
string disable the filter). -/
def truthyName : Option String → Bool
  | none => false
  | some s => s ≠ ""

/-- The inner recursive `traverse(nodeId, depth)` of `traverseFromNode`. -/
def travNode (g : GraphState) (opts : TraverseOptions) :
    Nat → Nat → Nat → TravState → TravState
  | 0, _, _, st => st
  | fuel + 1, nodeId, depth, st =>
    if depthExceeds opts.maxDepth depth || st.visitedNodes.contains nodeId then st
    else
      let st1 : TravState := { st with visitedNodes := st.visitedNodes ++ [nodeId] }
      ((JMap.get g.nodeRelations nodeId).getD []).foldl (fun acc relId =>
        if acc.visitedRelations.contains relId then acc
        else
          match JMap.get g.relations relId with
          | none => acc
          | some rel =>
            if truthyName opts.relationName ∧ rel.name ≠ opts.relationName.getD "" then
              acc
            else
              let isOut := rel.fromNodeId = nodeId
              let dir := if isOut then Dir.outgoing else Dir.incoming
              if ¬ opts.directions.contains dir then acc
              else
                let otherNodeId := if isOut then rel.toNodeId else rel.fromNodeId
                match JMap.get g.nodes otherNodeId with
                | none => acc
                | some otherNode =>
                  let acc1 : TravState := { acc with
                    visitedRelations := acc.visitedRelations ++ [relId],
                    result := acc.result ++ [(JMap.get g.nodes nodeId, rel, otherNode)] }
                  travNode g opts fuel otherNodeId (depth + 1) acc1) st1

/-- Fuel sufficient for any `travNode`/`travRel` run: one unit per relation
plus one for the root call. -/
def travFuel (g : GraphState) : Nat := g.relations.length + 1

/-- `traverseFromNode(startNodeId, options)`. -/
def traverseFromNode (g : GraphState) (startNodeId : Nat) (opts : TraverseOptions) :
    List Triplet :=
  (travNode g opts (travFuel g) startNodeId 0 ⟨[], [], []⟩).result

/-- The mutable state of one `traverseFromRelation` call. -/
structure TravRState where
  visited : List Nat
  result : List Triplet

/-- The inner recursive `traverse(relationId, depth)` of
`traverseFromRelation`. -/
def travRel (g : GraphState) (maxDepth : Option Nat) :
    Nat → Nat → Nat → TravRState → TravRState
  | 0, _, _, st => st
  | fuel + 1, relationId, depth, st =>
    if depthExceeds maxDepth depth then st
    else if st.visited.contains relationId then st
    else
      let st1 : TravRState := { st with visited := st.visited ++ [relationId] }
      match JMap.get g.relations relationId with
      | none => st1
      | some rel =>
        match JMap.get g.nodes rel.fromNodeId, JMap.get g.nodes rel.toNodeId with
        | some fromNode, some toNode =>
          let st2 : TravRState :=
            { st1 with result := st1.result ++ [(some fromNode, rel, toNode)] }
          [rel.fromNodeId, rel.toNodeId].foldl (fun acc nodeId =>
            ((JMap.get g.nodeRelations nodeId).getD []).foldl (fun acc2 connectedRelId =>
              if acc2.visited.contains connectedRelId then acc2
              else travRel g maxDepth fuel connectedRelId (depth + 1) acc2) acc) st2
        | _, _ => st1

/-- `traverseFromRelation(startRelationId, maxDepth)`. -/
def traverseFromRelation (g : GraphState) (startRelationId : Nat)
    (maxDepth : Option Nat) : List Triplet :=
  match JMap.get g.relations startRelationId with
  | none => []
  | some _ => (travRel g maxDepth (travFuel g) startRelationId 0 ⟨[], []⟩).result

/-! ## The hierarchical assembler (`searchAndTraverse`) -/

/-- A node of the nested result tree built by `_buildHierarchicalStructure`
(`similarity` is attached only on a depth-0 root). -/
inductive HResult where
  | nodeRes (entity : Node) (similarity : Option SimVal)
      (outgoingRelations incomingRelations : List HResult)
  | relRes (entity : Relation) (similarity : Option SimVal)
      (fromNode toNode : Option HResult)

/-- The process-scoped visited set, keyed by `type:id` (`true` marks a
node key). -/
abbrev HVisited : Type := List (Bool × Nat)

mutual

/-- The `buildNode(nodeEntity, depth)` closure.  The fuel argument only
serves Lean's termination; the depth guards stop every run before the fuel
(set to `2 * maxHops + 8` by the wrapper) can run out. -/
def buildNodeH (g : GraphState) (maxHops : Nat) (dirs : List Dir) (endOnNode : Bool)
    (sim : Option SimVal) : Nat → Node → Nat → HVisited → HResult × HVisited
  | 0, nodeEntity, depth, visited =>
    (.nodeRes nodeEntity (if depth = 0 then sim else none) [] [], visited)
  | gas + 1, nodeEntity, depth, visited =>
    if depth > maxHops ∨ (true, nodeEntity.id) ∈ visited then
      (.nodeRes nodeEntity (if depth = 0 then sim else none) [] [], visited)
    else
      let visited1 := visited ++ [(true, nodeEntity.id)]
      if depth ≥ maxHops then
        (.nodeRes nodeEntity (if depth = 0 then sim else none) [] [], visited1)
      else
        let r := buildNodeRelsH g maxHops dirs endOnNode sim gas nodeEntity depth
          ((JMap.get g.nodeRelations nodeEntity.id).getD []) [] [] visited1
        (.nodeRes nodeEntity (if depth = 0 then sim else none) r.1 r.2.1, r.2.2)
termination_by gas _ _ _ => (gas, 0)

/-- The `for (const relationId of relationIds)` loop inside `buildNode`,
threading the two child lists and the visited set. -/
def buildNodeRelsH (g : GraphState) (maxHops : Nat) (dirs : List Dir) (endOnNode : Bool)
    (sim : Option SimVal) : Nat → Node → Nat → List Nat → List HResult →
    List HResult → HVisited → List HResult × List HResult × HVisited
  | _, _, _, [], outs, ins, visited => (outs, ins, visited)
  | gas, nodeEntity, depth, relId :: rest, outs, ins, visited =>
    match JMap.get g.relations relId with
    | none => buildNodeRelsH g maxHops dirs endOnNode sim gas nodeEntity depth rest outs ins visited
    | some relation =>
      if (false, relId) ∈ visited then
        buildNodeRelsH g maxHops dirs endOnNode sim gas nodeEntity depth rest outs ins visited
      else
        let isOutgoing := relation.fromNodeId = nodeEntity.id
        let dir := if isOutgoing then Dir.outgoing else Dir.incoming
        if ¬ dirs.contains dir then
          buildNodeRelsH g maxHops dirs endOnNode sim gas nodeEntity depth rest outs ins visited
        else
          let r := buildRelationH g maxHops dirs endOnNode sim gas relation (depth + 1) visited
          if isOutgoing then
            buildNodeRelsH g maxHops dirs endOnNode sim gas nodeEntity depth rest
              (outs ++ [r.1]) ins r.2
          else
            buildNodeRelsH g maxHops dirs endOnNode sim gas nodeEntity depth rest
              outs (ins ++ [r.1]) r.2
termination_by gas _ _ lst _ _ _ => (gas, lst.length + 1)

/-- The `buildRelation(relationEntity, depth, fromNodeId)` closure (its
`fromNodeId` parameter is never read in the source and is omitted). -/
def buildRelationH (g : GraphState) (maxHops : Nat) (dirs : List Dir) (endOnNode : Bool)
    (sim : Option SimVal) : Nat → Relation → Nat → HVisited → HResult × HVisited
  | 0, relationEntity, depth, visited =>
    (.relRes relationEntity (if depth = 0 then sim else none) none none, visited)
  | gas + 1, relationEntity, depth, visited =>
    if depth > maxHops ∨ (false, relationEntity.id) ∈ visited then
      (.relRes relationEntity (if depth = 0 then sim else none) none none, visited)
    else
      let visited1 := visited ++ [(false, relationEntity.id)]
      if depth ≥ maxHops ∧ ¬ endOnNode then
        (.relRes relationEntity (if depth = 0 then sim else none) none none, visited1)
      else
        let fromStep : Option HResult × HVisited :=
          match JMap.get g.nodes relationEntity.fromNodeId with
          | some fromNode =>
            let r := buildNodeH g maxHops dirs endOnNode sim gas fromNode (depth + 1) visited1
            (some r.1, r.2)
          | none => (none, visited1)
        let toStep : Option HResult × HVisited :=
          match JMap.get g.nodes relationEntity.toNodeId with
          | some toNode =>
            let r := buildNodeH g maxHops dirs endOnNode sim gas toNode (depth + 1) fromStep.2
            (some r.1, r.2)
          | none => (none, fromStep.2)
        (.relRes relationEntity (if depth = 0 then sim else none) fromStep.1 toStep.1,
          toStep.2)
termination_by gas _ _ _ => (gas, 0)

end

/-- `_buildHierarchicalStructure(entityType, entity, maxHops, directions,
endOnNode, similarity)`, with a fresh visited set per call. -/
def buildHierarchicalStructure (g : GraphState) (entity : Entity) (maxHops : Nat)
    (dirs : List Dir) (endOnNode : Bool) (sim : Option SimVal) : HResult :=
  match entity with
  | .node n => (buildNodeH g maxHops dirs endOnNode sim (2 * maxHops + 8) n 0 []).1
  | .rel r => (buildRelationH g maxHops dirs endOnNode sim (2 * maxHops + 8) r 0 []).1

/-- Options of `searchAndTraverse`, with their destructuring defaults. -/
structure SearchTraverseOptions where
  embeddingKey : String := "embedding"
  threshold : ℚ := 1 / 2
  limit : Nat := 10
  hops : Nat := 3
  nodeFilters : List CondEntry := []
  relationFilters : List CondEntry := []
  searchNodes : Bool := true
  searchRelations : Bool := true
  directions : List Dir := [.outgoing, .incoming]
  endOnNode : Bool := false

/-- The `.filter(match => matchesConditions(match.node, nodeFilters))`
step (a thrown error propagates out of the filter). -/
def filterMatchesNodes (filters : List CondEntry) :
    List (Node × SimVal) → Except String (List (Node × SimVal))
  | [] => .ok []
  | (n, v) :: rest =>
    (matchesConditions (.node n) filters).bind (fun b =>
      (filterMatchesNodes filters rest).map (fun l => if b then (n, v) :: l else l))

/-- The matching filter step for relation matches. -/
def filterMatchesRelations (filters : List CondEntry) :
    List (Relation × SimVal) → Except String (List (Relation × SimVal))
  | [] => .ok []
  | (r, v) :: rest =>
    (matchesConditions (.rel r) filters).bind (fun b =>
      (filterMatchesRelations filters rest).map (fun l => if b then (r, v) :: l else l))

/-- The seed-selection phase of `searchAndTraverse`: the two similarity
searches (with their halved limits), the extra condition filters, the
merge (node matches first), the stable descending re-sort and the final
`slice(0, limit)`. -/
def pickTopMatches (s : GraphState) (q : Option JValue) (opts : SearchTraverseOptions) :
    Except String (List (Entity × SimVal)) :=
  if ¬ isNonEmptyArrayU q then .error "Query embedding must be a non-empty array"
  else
    (if opts.searchNodes then
      (searchNodesByCosineSimilarity s q
        { embeddingKey := opts.embeddingKey, threshold := opts.threshold,
          limit := if opts.searchRelations then (opts.limit + 1) / 2 else opts.limit }).bind
        (fun nm => filterMatchesNodes opts.nodeFilters nm)
     else .ok []).bind (fun nodeMatches =>
    (if opts.searchRelations then
      (searchRelationsByCosineSimilarity s q
        { embeddingKey := opts.embeddingKey, threshold := opts.threshold,
          limit := if opts.searchNodes then (opts.limit + 1) / 2 else opts.limit }).bind
        (fun rm => filterMatchesRelations opts.relationFilters rm)
     else .ok []).map (fun relMatches =>
      let initialMatches :=
        nodeMatches.map (fun p => ((Entity.node p.1 : Entity), p.2)) ++
        relMatches.map (fun p => ((Entity.rel p.1 : Entity), p.2))
      (sortBySimDesc initialMatches).take opts.limit))

/-- `searchAndTraverse(queryEmbedding, options)`: seed selection followed
by one hierarchical tree per seed. -/
def searchAndTraverse (s : GraphState) (q : Option JValue)
    (opts : SearchTraverseOptions) : Except String (List HResult) :=
  (pickTopMatches s q opts).map (fun tops =>
    tops.map (fun m =>
      buildHierarchicalStructure s m.1 opts.hops opts.directions opts.endOnNode
        (some m.2)))

/-! ## Map and set lemmas -/

theorem JMap.hasKey_iff_mem {α β : Type} [DecidableEq α] (m : JMap α β) (k : α) :
    JMap.hasKey m k = true ↔ k ∈ JMap.keys m := by
  induction m with
  | nil => simp [JMap.hasKey, JMap.keys]
  | cons p rest ih =>
    by_cases h : p.1 = k
    · simp [JMap.hasKey, JMap.keys, h]
    · simp [JMap.hasKey, JMap.keys, h, Ne.symm h, ih]

theorem JMap.get_eq_none_of_not_mem {α β : Type} [DecidableEq α] (m : JMap α β) (k : α)
    (h : k ∉ JMap.keys m) : JMap.get m k = none := by
  induction m with
  | nil => rfl
  | cons p rest ih =>
    simp only [JMap.keys, List.map_cons, List.mem_cons, not_or] at h
    simp [JMap.get, Ne.symm h.1, ih h.2]

theorem JMap.get_mapform {α β : Type} [DecidableEq α] (base : List α) (f : α → β)
    (k : α) (hk : k ∈ base) (hnd : base.Nodup) :
    JMap.get (base.map (fun x => (x, f x))) k = some (f k) := by
  induction base with
  | nil => simp at hk
  | cons a rest ih =>
    simp only [List.map_cons]
    rcases List.mem_cons.mp hk with h | h
    · simp [JMap.get, h]
    · have hne : a ≠ k := by
        rintro rfl; exact (List.nodup_cons.mp hnd).1 h
      simp [JMap.get, hne, ih h (List.nodup_cons.mp hnd).2]

theorem JMap.get_mapform_none {α β : Type} [DecidableEq α] (base : List α) (f : α → β)
    (k : α) (hk : k ∉ base) :
    JMap.get (base.map (fun x => (x, f x))) k = none := by
  apply JMap.get_eq_none_of_not_mem
  simpa [JMap.keys] using hk

theorem JMap.hasKey_mapform {α β : Type} [DecidableEq α] (base : List α) (f : α → β)
    (k : α) : JMap.hasKey (base.map (fun x => (x, f x))) k = true ↔ k ∈ base := by
  rw [JMap.hasKey_iff_mem]
  simp [JMap.keys]

theorem JMap.set_mapform {α β : Type} [DecidableEq α] (base : List α) (f : α → β)
    (a : α) (v : β) (ha : a ∈ base) :
    JMap.set (base.map (fun x => (x, f x))) a v =
      base.map (fun x => (x, if x = a then v else f x)) := by
  rw [JMap.set, if_pos ((JMap.hasKey_mapform base f a).mpr ha)]
  rw [List.map_map]
  apply List.map_congr_left
  intro x _
  by_cases h : x = a <;> simp [h]

theorem JMap.set_fresh {α β : Type} [DecidableEq α] (m : JMap α β) (k : α) (v : β)
    (h : k ∉ JMap.keys m) : JMap.set m k v = m ++ [(k, v)] := by
  rw [JMap.set, if_neg]
  rw [JMap.hasKey_iff_mem]
  exact h

theorem JMap.foldl_del_eq_filter {α β : Type} [DecidableEq α] (l : List α) (m : JMap α β) :
    l.foldl (fun m k => JMap.del m k) m = m.filter (fun p => decide (p.1 ∉ l)) := by
  induction l generalizing m with
  | nil => simp
  | cons a rest ih =>
    rw [List.foldl_cons, ih, JMap.del, List.filter_filter]
    apply List.filter_congr
    intro p _
    by_cases h1 : p.1 = a <;> by_cases h2 : p.1 ∈ rest <;> simp [h1, h2]

theorem JSet.del_foldl_eq_filter {α : Type} [DecidableEq α] (l : List α) (s : JSet α) :
    l.foldl (fun st x => JSet.del st x) s = s.filter (fun y => decide (y ∉ l)) := by
  induction l generalizing s with
  | nil => simp
  | cons a rest ih =>
    rw [List.foldl_cons, ih, JSet.del, List.filter_filter]
    apply List.filter_congr
    intro y _
    by_cases h1 : y = a <;> by_cases h2 : y ∈ rest <;> simp [h1, h2]

theorem JSet.mem_add {α : Type} [DecidableEq α] (s : JSet α) (x y : α) :
    y ∈ JSet.add s x ↔ y ∈ s ∨ y = x := by
  by_cases h : x ∈ s
  · simp only [JSet.add, if_pos h]
    constructor
    · exact Or.inl
    · rintro (hy | rfl) <;> [exact hy; exact h]
  · simp [JSet.add, if_neg h]

theorem JSet.add_eq_append {α : Type} [DecidableEq α] (s : JSet α) (x : α) (h : x ∉ s) :
    JSet.add s x = s ++ [x] := by
  simp [JSet.add, h]

theorem JMap.get_mem {α β : Type} [DecidableEq α] (m : JMap α β) (k : α) (v : β)
    (h : JMap.get m k = some v) : (k, v) ∈ m := by
  induction m with
  | nil => simp [JMap.get] at h
  | cons p rest ih =>
    rw [JMap.get] at h
    split at h
    · rename_i heq
      cases h
      subst heq
      simp
    · exact List.mem_cons_of_mem _ (ih h)

theorem JMap.mem_get {α β : Type} [DecidableEq α] (m : JMap α β) (k : α) (v : β)
    (hmem : (k, v) ∈ m) (hnd : (JMap.keys m).Nodup) : JMap.get m k = some v := by
  induction m with
  | nil => simp at hmem
  | cons p rest ih =>
    rcases List.mem_cons.mp hmem with h | h
    · rw [← h]
      simp [JMap.get]
    · have hk : k ∈ JMap.keys rest := List.mem_map_of_mem Prod.fst h
      have hne : p.1 ≠ k := by
        rintro rfl
        exact (List.nodup_cons.mp hnd).1 hk
      rw [JMap.get, if_neg hne]
      exact ih h (List.nodup_cons.mp hnd).2

/-! ## Characterization of the rebuilt index -/

/-- The relation ids incident to node id `k`, in relation-map order (each
id once, also for self-loops). -/
def incidentList (relations : JMap Nat Relation) (k : Nat) : List Nat :=
  ((JMap.values relations).filter
    (fun r => decide (r.fromNodeId = k ∨ r.toNodeId = k))).map Relation.id

/-- Same over a plain relation list. -/
def incidentListL (rels : List Relation) (k : Nat) : List Nat :=
  (rels.filter (fun r => decide (r.fromNodeId = k ∨ r.toNodeId = k))).map Relation.id

theorem incidentList_eq (relations : JMap Nat Relation) (k : Nat) :
    incidentList relations k = incidentListL (JMap.values relations) k := rfl

theorem incidentListL_cons (r : Relation) (rels : List Relation) (k : Nat) :
    incidentListL (r :: rels) k =
      (if r.fromNodeId = k ∨ r.toNodeId = k then [r.id] else []) ++ incidentListL rels k := by
  by_cases h : r.fromNodeId = k ∨ r.toNodeId = k <;>
    simp [incidentListL, h]

/-- Seeding the empty index: one empty set per node key, in order. -/
theorem seed_eq_mapform (ks : List Nat) (m : JMap Nat (JSet Nat))
    (hfresh : ∀ k ∈ ks, k ∉ JMap.keys m) (hnd : ks.Nodup) :
    ks.foldl (fun m k => JMap.set m k []) m = m ++ ks.map (fun k => (k, ([] : JSet Nat))) := by
  induction ks generalizing m with
  | nil => simp
  | cons a rest ih =>
    rw [List.foldl_cons, JMap.set_fresh m a [] (hfresh a (List.mem_cons_self a rest))]
    rw [ih]
    · simp
    · intro k hk
      have h1 : k ∉ JMap.keys m := hfresh k (List.mem_cons_of_mem _ hk)
      have h2 : k ≠ a := fun he => (List.nodup_cons.mp hnd).1 (he ▸ hk)
      rw [JMap.keys, List.map_append, List.mem_append]
      rintro (hm | he)
      · exact h1 hm
      · simp at he
        exact h2 he
    · exact (List.nodup_cons.mp hnd).2

/-- One step of `populateIndex` on a map in canonical `base.map` form. -/
theorem populate_char (rels : List Relation) (base : List Nat) (f : Nat → JSet Nat)
    (hnd : base.Nodup)
    (hend : ∀ r ∈ rels, r.fromNodeId ∈ base ∧ r.toNodeId ∈ base)
    (hfresh : ∀ r ∈ rels, ∀ k, r.id ∉ f k)
    (hids : (rels.map Relation.id).Nodup) :
    populateIndex (base.map (fun k => (k, f k))) rels =
      some (base.map (fun k => (k, f k ++ incidentListL rels k))) := by
  induction rels generalizing f with
  | nil => simp [populateIndex, incidentListL]
  | cons r rest ih =>
    have hmemF : r.fromNodeId ∈ base := (hend r (List.mem_cons_self r rest)).1
    have hmemT : r.toNodeId ∈ base := (hend r (List.mem_cons_self r rest)).2
    rw [populateIndex]
    rw [JMap.get_mapform base f r.fromNodeId hmemF hnd]
    dsimp only
    rw [JMap.set_mapform base f r.fromNodeId _ hmemF]
    set f1 : Nat → JSet Nat :=
      fun k => if k = r.fromNodeId then JSet.add (f r.fromNodeId) r.id else f k with hf1
    rw [JMap.get_mapform base f1 r.toNodeId hmemT hnd]
    dsimp only
    rw [JMap.set_mapform base f1 r.toNodeId _ hmemT]
    set f2 : Nat → JSet Nat :=
      fun k => if k = r.toNodeId then JSet.add (f1 r.toNodeId) r.id else f1 k with hf2
    rw [ih f2 ?hend ?hfresh ?hids]
    case hend => exact fun r' hr' => hend r' (List.mem_cons_of_mem _ hr')
    case hids => exact (List.nodup_cons.mp hids).2
    case hfresh =>
      intro r' hr' k
      have hne : r'.id ≠ r.id := by
        intro he
        exact (List.nodup_cons.mp hids).1 (he ▸ List.mem_map_of_mem Relation.id hr')
      have hbase := hfresh r' (List.mem_cons_of_mem _ hr') k
      have hbaseF := hfresh r' (List.mem_cons_of_mem _ hr') r.fromNodeId
      have hbaseT := hfresh r' (List.mem_cons_of_mem _ hr') r.toNodeId
      simp only [hf2, hf1]
      have h3f : (r.fromNodeId = r.toNodeId) ↔ (r.toNodeId = r.fromNodeId) := eq_comm
      by_cases h2 : k = r.toNodeId <;> by_cases h1 : k = r.fromNodeId <;>
        by_cases h3 : r.toNodeId = r.fromNodeId <;>
        simp [h2, h1, h3, h3f, JSet.mem_add, hne, hbase, hbaseF, hbaseT]
    · congr 1
      apply List.map_congr_left
      intro k _
      have hfreshr := hfresh r (List.mem_cons_self r rest)
      have key : f2 k =
          f k ++ (if r.fromNodeId = k ∨ r.toNodeId = k then [r.id] else []) := by
        by_cases h2 : k = r.toNodeId
        · simp only [hf2, if_pos h2]
          by_cases h1 : k = r.fromNodeId
          · have h21 : r.toNodeId = r.fromNodeId := h2.symm.trans h1
            simp only [hf1, if_pos h21]
            rw [JSet.add_eq_append (f r.fromNodeId) r.id (hfreshr r.fromNodeId),
              JSet.add, if_pos (by simp), if_pos (Or.inl h1.symm), h1]
          · have h21 : ¬ r.toNodeId = r.fromNodeId := fun he => h1 (h2.trans he)
            simp only [hf1, if_neg h21]
            rw [JSet.add_eq_append (f r.toNodeId) r.id (hfreshr r.toNodeId),
              if_pos (Or.inr h2.symm), h2]
        · simp only [hf2, if_neg h2]
          by_cases h1 : k = r.fromNodeId
          · simp only [hf1, if_pos h1]
            rw [JSet.add_eq_append (f r.fromNodeId) r.id (hfreshr r.fromNodeId),
              if_pos (Or.inl h1.symm), h1]
          · simp only [hf1, if_neg h1]
            rw [if_neg (by rintro (h | h); exacts [h1 h.symm, h2 h.symm])]
            simp
      congr 1
      rw [incidentListL_cons, key, List.append_assoc]

/-- The full characterization of `rebuildNodeRelationsIndex`: under the
store invariants it succeeds and produces, per node key in node order, the
incident relation ids in relation order. -/
theorem rebuild_char (nodes : JMap Nat Node) (relations : JMap Nat Relation)
    (hnd : (JMap.keys nodes).Nodup)
    (hids : ((JMap.values relations).map Relation.id).Nodup)
    (hend : ∀ r ∈ JMap.values relations,
      r.fromNodeId ∈ JMap.keys nodes ∧ r.toNodeId ∈ JMap.keys nodes) :
    rebuildNodeRelationsIndex nodes relations =
      some ((JMap.keys nodes).map (fun k => (k, incidentList relations k))) := by
  rw [rebuildNodeRelationsIndex]
  have hseed := seed_eq_mapform (JMap.keys nodes) [] (by simp [JMap.keys]) hnd
  simp only at hseed
  rw [hseed]
  rw [List.nil_append]
  have := populate_char (JMap.values relations) (JMap.keys nodes)
    (fun _ => ([] : JSet Nat)) hnd hend (by simp) hids
  rw [this]
  simp [incidentList_eq]

/-! ## The store invariant -/

/-- Invariants maintained by every mutating operation: entries are keyed by
their entity's id, keys are duplicate-free and below the id counter,
relations reference existing nodes, and the incremental `nodeRelations`
index equals its canonical (rebuilt) form. -/
structure StoreInv (s : GraphState) : Prop where
  nodesKeyId : ∀ p ∈ s.nodes, (p : Nat × Node).2.id = p.1
  relsKeyId : ∀ p ∈ s.relations, (p : Nat × Relation).2.id = p.1
  nodesNodup : (JMap.keys s.nodes).Nodup
  relsNodup : (JMap.keys s.relations).Nodup
  endpoints : ∀ r ∈ JMap.values s.relations,
    r.fromNodeId ∈ JMap.keys s.nodes ∧ r.toNodeId ∈ JMap.keys s.nodes
  nodesLt : ∀ k ∈ JMap.keys s.nodes, k < s.idCounter
  relsLt : ∀ k ∈ JMap.keys s.relations, k < s.idCounter
  indexEq : s.nodeRelations =
    (JMap.keys s.nodes).map (fun k => (k, incidentList s.relations k))

theorem StoreInv.relIdsEqKeys {s : GraphState} (hInv : StoreInv s) :
    (JMap.values s.relations).map Relation.id = JMap.keys s.relations := by
  rw [JMap.values, JMap.keys, List.map_map]
  exact List.map_congr_left (fun p hp => hInv.relsKeyId p hp)

theorem StoreInv.relIdsNodup {s : GraphState} (hInv : StoreInv s) :
    ((JMap.values s.relations).map Relation.id).Nodup := by
  rw [hInv.relIdsEqKeys]
  exact hInv.relsNodup

theorem StoreInv.indexKeys {s : GraphState} (hInv : StoreInv s) :
    JMap.keys s.nodeRelations = JMap.keys s.nodes := by
  rw [hInv.indexEq, JMap.keys, List.map_map]
  simp [JMap.keys]

/-- The rebuilt index of an invariant-satisfying store is exactly its
incrementally maintained index. -/
theorem rebuild_eq_of_inv {s : GraphState} (hInv : StoreInv s) :
    rebuildNodeRelationsIndex s.nodes s.relations = some s.nodeRelations := by
  rw [rebuild_char s.nodes s.relations hInv.nodesNodup hInv.relIdsNodup hInv.endpoints]
  rw [hInv.indexEq]

theorem emptyStore_inv : StoreInv emptyStore := by
  constructor <;> simp [emptyStore, JMap.keys, JMap.values]

/-- No relation is incident to an id that every endpoint differs from. -/
theorem incidentList_eq_nil {s : GraphState} (hInv : StoreInv s) (k : Nat)
    (hk : k ∉ JMap.keys s.nodes) : incidentList s.relations k = [] := by
  rw [incidentList, List.map_eq_nil_iff, List.filter_eq_nil_iff]
  intro r hr
  simp only [decide_eq_true_eq]
  rintro (h | h)
  · exact hk (h ▸ (hInv.endpoints r hr).1)
  · exact hk (h ▸ (hInv.endpoints r hr).2)

theorem addNode_inv {s s' : GraphState} {name : String} {md : List (String × JValue)}
    {n : Node} (h : addNode s name md = .ok (s', n)) (hInv : StoreInv s) : StoreInv s' := by
  rw [addNode] at h
  split at h
  · exact absurd h (by simp)
  · rw [generateId] at h
    simp only [Except.ok.injEq, Prod.mk.injEq] at h
    obtain ⟨hs', _⟩ := h
    have hfreshN : s.idCounter ∉ JMap.keys s.nodes :=
      fun hmem => absurd (hInv.nodesLt _ hmem) (by omega)
    have hfreshI : s.idCounter ∉ JMap.keys s.nodeRelations := by
      rw [hInv.indexKeys]
      exact hfreshN
    have hnodes : s'.nodes =
        s.nodes ++ [(s.idCounter, ⟨s.idCounter, name, md⟩)] := by
      rw [← hs']
      exact JMap.set_fresh _ _ _ hfreshN
    have hindex : s'.nodeRelations = s.nodeRelations ++ [(s.idCounter, [])] := by
      rw [← hs']
      exact JMap.set_fresh _ _ _ hfreshI
    have hrels : s'.relations = s.relations := by rw [← hs']
    have hcnt : s'.idCounter = s.idCounter + 1 := by rw [← hs']
    have hkeys : JMap.keys s'.nodes = JMap.keys s.nodes ++ [s.idCounter] := by
      rw [hnodes, JMap.keys, List.map_append]
      rfl
    constructor
    · intro p hp
      rw [hnodes] at hp
      rcases List.mem_append.mp hp with hp | hp
      · exact hInv.nodesKeyId p hp
      · simp at hp
        rw [hp]
    · rw [hrels]
      exact hInv.relsKeyId
    · rw [hkeys]
      simp [List.nodup_append, hInv.nodesNodup, hfreshN]
    · rw [hrels]
      exact hInv.relsNodup
    · intro r hr
      rw [hrels] at hr
      rw [hkeys]
      exact ⟨List.mem_append_left _ (hInv.endpoints r hr).1,
        List.mem_append_left _ (hInv.endpoints r hr).2⟩
    · intro k hk
      rw [hkeys] at hk
      rw [hcnt]
      rcases List.mem_append.mp hk with hk | hk
      · have := hInv.nodesLt k hk
        omega
      · simp at hk
        omega
    · intro k hk
      rw [hrels] at hk
      rw [hcnt]
      have := hInv.relsLt k hk
      omega
    · rw [hindex, hkeys, hrels, List.map_append, hInv.indexEq]
      congr 1
      simp only [List.map_cons, List.map_nil]
      rw [incidentList_eq_nil hInv _ hfreshN]

theorem incidentListL_append (l1 l2 : List Relation) (k : Nat) :
    incidentListL (l1 ++ l2) k = incidentListL l1 k ++ incidentListL l2 k := by
  simp [incidentListL, List.filter_append]

theorem addRelation_inv {s s' : GraphState} {name : String} {f t : Nat}
    {md : List (String × JValue)} {rel : Relation}
    (h : addRelation s name f t md = .ok (s', rel)) (hInv : StoreInv s) : StoreInv s' := by
  rw [addRelation] at h
  split at h
  · exact absurd h (by simp)
  · rename_i hcond
    have hab := of_not_not hcond
    have hmemF : f ∈ JMap.keys s.nodes := (JMap.hasKey_iff_mem _ _).mp hab.1
    have hmemT : t ∈ JMap.keys s.nodes := (JMap.hasKey_iff_mem _ _).mp hab.2
    rw [generateId] at h
    simp only at h
    split at h
    · exact absurd h (by simp)
    · rename_i sFrom hgetF
      split at h
      · exact absurd h (by simp)
      · rename_i sTo hgetT
        simp only [Except.ok.injEq, Prod.mk.injEq] at h
        obtain ⟨hs', hrel⟩ := h
        set cnt := s.idCounter with hcnt
        have hfreshR : cnt ∉ JMap.keys s.relations :=
          fun hmem => absurd (hInv.relsLt _ hmem) (by omega)
        have hfreshInc : ∀ k, cnt ∉ incidentList s.relations k := by
          intro k hk
          rw [incidentList] at hk
          obtain ⟨r, hr, hrid⟩ := List.mem_map.mp hk
          have : r ∈ JMap.values s.relations := List.mem_of_mem_filter hr
          have : r.id ∈ JMap.keys s.relations := by
            rw [← hInv.relIdsEqKeys]
            exact List.mem_map_of_mem Relation.id this
          exact hfreshR (hrid ▸ this)
        have hgetF' : sFrom = incidentList s.relations f := by
          rw [hInv.indexEq] at hgetF
          rw [JMap.get_mapform _ _ _ hmemF hInv.nodesNodup] at hgetF
          exact (Option.some.inj hgetF).symm
        subst hgetF'
        have hidx1 : JMap.set s.nodeRelations f
            (JSet.add (incidentList s.relations f) cnt) =
            (JMap.keys s.nodes).map (fun k =>
              (k, if k = f then JSet.add (incidentList s.relations f) cnt
                  else incidentList s.relations k)) := by
          rw [hInv.indexEq]
          exact JMap.set_mapform _ _ _ _ hmemF
        rw [hidx1] at hgetT
        have hgetT' : sTo = (if t = f then JSet.add (incidentList s.relations f) cnt
            else incidentList s.relations t) := by
          rw [JMap.get_mapform _ _ _ hmemT hInv.nodesNodup] at hgetT
          exact (Option.some.inj hgetT).symm
        subst hgetT'
        have hrels' : s'.relations = s.relations ++
            [(cnt, { id := cnt, name := name, fromNodeId := f, toNodeId := t,
                     metadata := md })] := by
          rw [← hs']
          exact JMap.set_fresh _ _ _ hfreshR
        have hnodes' : s'.nodes = s.nodes := by rw [← hs']
    
        have hcnt' : s'.idCounter = s.idCounter + 1 := by rw [← hs']
        have hindex' : s'.nodeRelations =
            (JMap.keys s.nodes).map (fun k =>
              (k, incidentList s.relations k ++
                (if f = k ∨ t = k then [cnt] else []))) := by
          rw [← hs']
          simp only
          rw [hidx1]
          rw [JMap.set_mapform _ _ _ _ hmemT]
          apply List.map_congr_left
          intro k hkmem
          by_cases h1 : k = f
          · subst h1
            by_cases h2 : k = t
            · subst h2
              simp [JSet.add, hfreshInc k]
            · simp [JSet.add, hfreshInc k, h2, Ne.symm h2]
          · by_cases h2 : k = t
            · subst h2
              simp [JSet.add, hfreshInc k, h1, Ne.symm h1]
            · simp [JSet.add, hfreshInc k, h1, Ne.symm h1, h2, Ne.symm h2]
        have hvals' : JMap.values s'.relations = JMap.values s.relations ++
            [{ id := cnt, name := name, fromNodeId := f, toNodeId := t,
               metadata := md }] := by
          rw [hrels', JMap.values, List.map_append]
          rfl
        constructor
        · rw [hnodes']
          exact hInv.nodesKeyId
        · intro p hp
          rw [hrels'] at hp
          rcases List.mem_append.mp hp with hp | hp
          · exact hInv.relsKeyId p hp
          · simp at hp
            rw [hp]
        · rw [hnodes']
          exact hInv.nodesNodup
        · rw [hrels', JMap.keys, List.map_append]
          simp only [List.map_cons, List.map_nil]
          rw [List.nodup_append]
          refine ⟨hInv.relsNodup, List.nodup_singleton _, ?_⟩
          intro a ha
          simp only [List.mem_singleton, List.mem_cons, List.not_mem_nil, or_false]
          rintro rfl
          exact hfreshR ha
        · intro r hr
          rw [hvals'] at hr
          rw [hnodes']
          rcases List.mem_append.mp hr with hr | hr
          · exact hInv.endpoints r hr
          · simp at hr
            rw [hr]
            exact ⟨hmemF, hmemT⟩
        · intro k hk
          rw [hnodes'] at hk
          rw [hcnt']
          have := hInv.nodesLt k hk
          omega
        · intro k hk
          rw [hrels', JMap.keys, List.map_append] at hk
          rw [hcnt']
          rcases List.mem_append.mp hk with hk | hk
          · have := hInv.relsLt k hk
            omega
          · simp at hk
            omega
        · rw [hindex', hnodes']
          apply List.map_congr_left
          intro k _
          rw [incidentList_eq s'.relations k, hvals', incidentListL_append,
            ← incidentList_eq s.relations k]
          simp only [incidentListL, Prod.mk.injEq, true_and, List.append_cancel_left_eq]
          by_cases hf : f = k <;> by_cases ht : t = k <;> simp [hf, ht]

theorem deleteNode_inv {s s' : GraphState} {nid : Nat} {node : Node}
    (h : deleteNode s nid = .ok (s', node)) (hInv : StoreInv s) : StoreInv s' := by
  rw [deleteNode] at h
  split at h
  · exact absurd h (by simp)
  · rename_i nd hget
    simp only [Except.ok.injEq, Prod.mk.injEq] at h
    obtain ⟨hs', hnode⟩ := h
    have hmemN : nid ∈ JMap.keys s.nodes :=
      List.mem_map_of_mem Prod.fst (JMap.get_mem _ _ _ hget)
    have hrelIds : (JMap.get s.nodeRelations nid).getD [] =
        incidentList s.relations nid := by
      rw [hInv.indexEq, JMap.get_mapform _ _ _ hmemN hInv.nodesNodup]
      rfl
    have hnodes' : s'.nodes = s.nodes.filter (fun p => decide (p.1 ≠ nid)) := by
      rw [← hs']
      rfl
    have hrels0 : s'.relations = List.foldl (fun m rid => JMap.del m rid) s.relations
        ((JMap.get s.nodeRelations nid).getD []) := by
      rw [← hs']
    have hrels' : s'.relations =
        s.relations.filter (fun p => decide (p.1 ∉ incidentList s.relations nid)) := by
      rw [hrels0, hrelIds]
      exact JMap.foldl_del_eq_filter _ s.relations
    have hvals' : JMap.values s'.relations =
        (JMap.values s.relations).filter
          (fun r => decide (r.id ∉ incidentList s.relations nid)) := by
      rw [hrels']
      have hcg : s.relations.filter
            (fun p => decide (p.1 ∉ incidentList s.relations nid)) =
          s.relations.filter
            (fun p => decide ((p : Nat × Relation).2.id ∉ incidentList s.relations nid)) := by
        apply List.filter_congr
        intro p hp
        rw [hInv.relsKeyId p hp]
      rw [hcg, JMap.values, JMap.values, List.filter_map]
      rfl
    have hvalsSub : ∀ r ∈ JMap.values s'.relations,
        r ∈ JMap.values s.relations ∧ r.id ∉ incidentList s.relations nid := by
      intro r hr
      rw [hvals'] at hr
      have hm := List.mem_filter.mp hr
      exact ⟨hm.1, by simpa using hm.2⟩
    have hnoInc : ∀ r ∈ JMap.values s'.relations,
        r.fromNodeId ≠ nid ∧ r.toNodeId ≠ nid := by
      intro r hr
      obtain ⟨hrOld, hrid⟩ := hvalsSub r hr
      constructor
      · intro he
        exact hrid (List.mem_map_of_mem Relation.id
          (List.mem_filter.mpr ⟨hrOld, by simp [he]⟩))
      · intro he
        exact hrid (List.mem_map_of_mem Relation.id
          (List.mem_filter.mpr ⟨hrOld, by simp [he]⟩))
    have hkeys' : JMap.keys s'.nodes =
        (JMap.keys s.nodes).filter (fun k => decide (k ≠ nid)) := by
      rw [hnodes', JMap.keys, JMap.keys, List.filter_map]
      rfl
    have hidx' : s'.nodeRelations =
        ((JMap.keys s.nodes).filter (fun k => decide (k ≠ nid))).map
          (fun k => (k, (incidentList s.relations k).filter
            (fun x => decide (x ∉ incidentList s.relations nid)))) := by
      have hidx0 : s'.nodeRelations = JMap.del
          (List.map (fun p =>
            if p.1 = nid then p
            else (p.1, List.foldl (fun st rid => JSet.del st rid) p.2
              ((JMap.get s.nodeRelations nid).getD []))) s.nodeRelations) nid := by
        rw [← hs']
      rw [hidx0, hrelIds, hInv.indexEq, JMap.del, List.map_map, List.filter_map]
      have hpred : ∀ k ∈ JMap.keys s.nodes,
          (((fun p => if p.1 = nid then p
              else (p.1, (incidentList s.relations nid).foldl
                (fun st rid => JSet.del st rid) p.2)) ∘
            (fun k => (k, incidentList s.relations k))) k).1 = k := by
        intro k _
        by_cases hk : k = nid <;> simp [hk]
      rw [List.filter_congr ?pc]
      case pc =>
        intro k hk
        show _ = decide (k ≠ nid)
        by_cases hk2 : k = nid <;> simp [hk2]
      apply List.map_congr_left
      intro k hk
      have hkne : k ≠ nid := by simpa using (List.mem_filter.mp hk).2
      simp only [Function.comp_apply, if_neg hkne]
      rw [JSet.del_foldl_eq_filter]
    constructor
    · intro p hp
      rw [hnodes'] at hp
      exact hInv.nodesKeyId p (List.mem_of_mem_filter hp)
    · intro p hp
      rw [hrels'] at hp
      exact hInv.relsKeyId p (List.mem_of_mem_filter hp)
    · rw [hkeys']
      exact hInv.nodesNodup.filter _
    · have hsub : List.Sublist (JMap.keys s'.relations) (JMap.keys s.relations) := by
        rw [hrels', JMap.keys, JMap.keys]
        exact (List.filter_sublist _).map Prod.fst
      exact hInv.relsNodup.sublist hsub
    · intro r hr
      have hend := hInv.endpoints r (hvalsSub r hr).1
      have hni := hnoInc r hr
      rw [hkeys']
      constructor
      · rw [List.mem_filter]
        exact ⟨hend.1, by simpa using hni.1⟩
      · rw [List.mem_filter]
        exact ⟨hend.2, by simpa using hni.2⟩
    · intro k hk
      rw [hkeys'] at hk
      have hcnt0 : s'.idCounter = s.idCounter := by rw [← hs']
      rw [hcnt0]
      exact hInv.nodesLt k (List.mem_of_mem_filter hk)
    · intro k hk
      have hcnt0 : s'.idCounter = s.idCounter := by rw [← hs']
      rw [hcnt0]
      have hsub : List.Sublist (JMap.keys s'.relations) (JMap.keys s.relations) := by
        rw [hrels', JMap.keys, JMap.keys]
        exact (List.filter_sublist _).map Prod.fst
      exact hInv.relsLt k (hsub.subset hk)
    · rw [hidx', hkeys']
      apply List.map_congr_left
      intro k hk
      have hkne : k ≠ nid := by simpa using (List.mem_filter.mp hk).2
      congr 1
      rw [incidentList_eq s'.relations k, hvals', incidentListL]
      rw [List.filter_comm]
      rw [incidentList_eq s.relations k, incidentListL]
      rw [List.filter_map]
      rfl

theorem JSet.del_del {α : Type} [DecidableEq α] (s : JSet α) (x : α) :
    JSet.del (JSet.del s x) x = JSet.del s x := by
  simp [JSet.del, List.filter_filter]

theorem JSet.del_eq_self {α : Type} [DecidableEq α] (s : JSet α) (x : α) (h : x ∉ s) :
    JSet.del s x = s := by
  rw [JSet.del, List.filter_eq_self]
  intro a ha
  simp only [decide_eq_true_eq]
  rintro rfl
  exact h ha

theorem deleteRelation_inv {s s' : GraphState} {rid : Nat} {rel : Relation}
    (h : deleteRelation s rid = .ok (s', rel)) (hInv : StoreInv s) : StoreInv s' := by
  rw [deleteRelation] at h
  split at h
  · exact absurd h (by simp)
  · rename_i r0 hget
    simp only [Except.ok.injEq, Prod.mk.injEq] at h
    obtain ⟨hs', hrel⟩ := h
    subst hrel
    have hentry : (rid, r0) ∈ s.relations := JMap.get_mem _ _ _ hget
    have hmemR : rid ∈ JMap.keys s.relations := List.mem_map_of_mem Prod.fst hentry
    have hrelVal : r0 ∈ JMap.values s.relations := List.mem_map_of_mem Prod.snd hentry
    have hrelId : r0.id = rid := hInv.relsKeyId (rid, r0) hentry
    have hmemF : r0.fromNodeId ∈ JMap.keys s.nodes := (hInv.endpoints r0 hrelVal).1
    have hmemT : r0.toNodeId ∈ JMap.keys s.nodes := (hInv.endpoints r0 hrelVal).2
    have hnodes' : s'.nodes = s.nodes := by rw [← hs']
    have hcnt' : s'.idCounter = s.idCounter := by rw [← hs']
    have hrels' : s'.relations = s.relations.filter (fun p => decide (p.1 ≠ rid)) := by
      rw [← hs']
      rfl
    have hvals' : JMap.values s'.relations =
        (JMap.values s.relations).filter (fun r => decide (r.id ≠ rid)) := by
      rw [hrels']
      have hcg : s.relations.filter (fun p => decide (p.1 ≠ rid)) =
          s.relations.filter (fun p => decide ((p : Nat × Relation).2.id ≠ rid)) := by
        apply List.filter_congr
        intro p hp
        rw [hInv.relsKeyId p hp]
      rw [hcg, JMap.values, JMap.values, List.filter_map]
      rfl
    have honlyRel : ∀ r' ∈ JMap.values s.relations, r'.id = rid → r' = r0 := by
      intro r' hr' hid
      exact List.inj_on_of_nodup_map hInv.relIdsNodup hr' hrelVal
        (hid.trans hrelId.symm)
    have hincid : ∀ k, rid ∈ incidentList s.relations k →
        r0.fromNodeId = k ∨ r0.toNodeId = k := by
      intro k hk
      rw [incidentList] at hk
      obtain ⟨r', hr', hid⟩ := List.mem_map.mp hk
      have hr'v := List.mem_of_mem_filter hr'
      have := honlyRel r' hr'v hid
      subst this
      simpa using List.of_mem_filter hr'
    have hidx' : s'.nodeRelations = (JMap.keys s.nodes).map (fun k =>
        (k, if k = r0.toNodeId ∨ k = r0.fromNodeId
            then JSet.del (incidentList s.relations k) rid
            else incidentList s.relations k)) := by
      have hidx0 : s'.nodeRelations =
          (s.nodeRelations.map (fun p =>
            if p.1 = r0.fromNodeId then (p.1, JSet.del p.2 rid) else p)).map (fun p =>
            if p.1 = r0.toNodeId then (p.1, JSet.del p.2 rid) else p) := by
        rw [← hs']
      rw [hidx0, hInv.indexEq, List.map_map, List.map_map]
      apply List.map_congr_left
      intro k _
      simp only [Function.comp_apply]
      by_cases h1 : k = r0.fromNodeId
      · by_cases h2 : k = r0.toNodeId
        · have h3 : r0.toNodeId = r0.fromNodeId := h2.symm.trans h1
          simp [h1, h2, h3, JSet.del_del]
        · have h3 : ¬ r0.fromNodeId = r0.toNodeId := fun he => h2 (h1.trans he)
          simp [h1, h2, h3, JSet.del_del]
      · by_cases h2 : k = r0.toNodeId
        · have h3 : ¬ r0.toNodeId = r0.fromNodeId := fun he => h1 (h2.trans he)
          simp [h1, h2, h3, JSet.del_del]
        · simp [h1, h2, JSet.del_del]
    constructor
    · rw [hnodes']
      exact hInv.nodesKeyId
    · intro p hp
      rw [hrels'] at hp
      exact hInv.relsKeyId p (List.mem_of_mem_filter hp)
    · rw [hnodes']
      exact hInv.nodesNodup
    · have hsub : List.Sublist (JMap.keys s'.relations) (JMap.keys s.relations) := by
        rw [hrels', JMap.keys, JMap.keys]
        exact (List.filter_sublist _).map Prod.fst
      exact hInv.relsNodup.sublist hsub
    · intro r hr
      rw [hvals'] at hr
      rw [hnodes']
      exact hInv.endpoints r (List.mem_of_mem_filter hr)
    · intro k hk
      rw [hnodes'] at hk
      rw [hcnt']
      exact hInv.nodesLt k hk
    · intro k hk
      rw [hcnt']
      have hsub : List.Sublist (JMap.keys s'.relations) (JMap.keys s.relations) := by
        rw [hrels', JMap.keys, JMap.keys]
        exact (List.filter_sublist _).map Prod.fst
      exact hInv.relsLt k (hsub.subset hk)
    · rw [hidx', hnodes']
      apply List.map_congr_left
      intro k hk
      have htarget : incidentList s'.relations k =
          JSet.del (incidentList s.relations k) rid := by
        rw [incidentList_eq s'.relations k, hvals', incidentListL]
        rw [List.filter_comm]
        rw [JSet.del, incidentList_eq s.relations k, incidentListL]
        rw [List.filter_map]
        rfl
      rw [htarget]
      by_cases hik : k = r0.toNodeId ∨ k = r0.fromNodeId
      · rw [if_pos hik]
      · rw [if_neg hik]
        rw [JSet.del_eq_self]
        intro hmem
        rcases hincid k hmem with hh | hh
        · exact hik (Or.inr hh.symm)
        · exact hik (Or.inl hh.symm)

theorem applyOp_inv {s s' : GraphState} {op : Op} (h : applyOp s op = .ok s')
    (hInv : StoreInv s) : StoreInv s' := by
  cases op with
  | addNode name md =>
    cases heq : addNode s name md with
    | error e =>
      rw [applyOp, heq] at h
      exact absurd h (by simp [Except.map])
    | ok p =>
      rw [applyOp, heq] at h
      simp only [Except.map, Except.ok.injEq] at h
      have hok : addNode s name md = .ok (s', p.2) := by rw [heq, ← h]
      exact addNode_inv hok hInv
  | addRelation name f t md =>
    cases heq : addRelation s name f t md with
    | error e =>
      rw [applyOp, heq] at h
      exact absurd h (by simp [Except.map])
    | ok p =>
      rw [applyOp, heq] at h
      simp only [Except.map, Except.ok.injEq] at h
      have hok : addRelation s name f t md = .ok (s', p.2) := by rw [heq, ← h]
      exact addRelation_inv hok hInv
  | deleteNode nid =>
    cases heq : deleteNode s nid with
    | error e =>
      rw [applyOp, heq] at h
      exact absurd h (by simp [Except.map])
    | ok p =>
      rw [applyOp, heq] at h
      simp only [Except.map, Except.ok.injEq] at h
      have hok : deleteNode s nid = .ok (s', p.2) := by rw [heq, ← h]
      exact deleteNode_inv hok hInv
  | deleteRelation rid =>
    cases heq : deleteRelation s rid with
    | error e =>
      rw [applyOp, heq] at h
      exact absurd h (by simp [Except.map])
    | ok p =>
      rw [applyOp, heq] at h
      simp only [Except.map, Except.ok.injEq] at h
      have hok : deleteRelation s rid = .ok (s', p.2) := by rw [heq, ← h]
      exact deleteRelation_inv hok hInv

theorem runOps_inv {ops : List Op} {s0 s : GraphState} (hInv0 : StoreInv s0)
    (h : runOps s0 ops = .ok s) : StoreInv s := by
  induction ops generalizing s0 with
  | nil =>
    rw [runOps] at h
    cases h
    exact hInv0
  | cons op rest ih =>
    rw [runOps] at h
    cases heq : applyOp s0 op with
    | error e =>
      rw [heq] at h
      exact absurd h (by simp [Except.bind])
    | ok s1 =>
      rw [heq] at h
      simp only [Except.bind] at h
      exact ih (applyOp_inv heq hInv0) h

/-- Claim C1: for every valid sequence of `addNode`, `addRelation`,
`deleteNode`, `deleteRelation` starting from an empty store, running
`rebuildNodeRelationsIndex` afterwards succeeds and produces a mapping
that agrees with the incrementally maintained `nodeRelations` index on
key presence and, per node, on set membership of relation ids. -/
theorem rebuild_agrees_with_incremental (ops : List Op) (s : GraphState)
    (h : runOps emptyStore ops = .ok s) :
    ∃ M, rebuildNodeRelationsIndex s.nodes s.relations = some M ∧
      (∀ k, JMap.hasKey M k = JMap.hasKey s.nodeRelations k) ∧
      (∀ k r, r ∈ (JMap.get M k).getD [] ↔ r ∈ (JMap.get s.nodeRelations k).getD []) := by
  have hInv := runOps_inv emptyStore_inv h
  exact ⟨s.nodeRelations, rebuild_eq_of_inv hInv, fun _ => rfl, fun _ _ => Iff.rfl⟩

/-- Witness for C1 at a concrete operation sequence (two nodes, one
relation, then a cascading node deletion). -/
theorem rebuild_agrees_with_incremental_witness :
    ∃ s, runOps emptyStore
      [.addNode "A" [], .addNode "B" [], .addRelation "knows" 0 1 [],
       .addRelation "likes" 1 0 [], .deleteNode 0] = .ok s ∧
      ∃ M, rebuildNodeRelationsIndex s.nodes s.relations = some M ∧
        (∀ k, JMap.hasKey M k = JMap.hasKey s.nodeRelations k) ∧
        (∀ k r, r ∈ (JMap.get M k).getD [] ↔ r ∈ (JMap.get s.nodeRelations k).getD []) := by
  have h : runOps emptyStore
      [.addNode "A" [], .addNode "B" [], .addRelation "knows" 0 1 [],
       .addRelation "likes" 1 0 [], .deleteNode 0] =
      .ok (GraphState.mk [(1, Node.mk 1 "B" [])] [] [(1, ([] : JSet Nat))] 4) := by rfl
  exact ⟨_, h, rebuild_agrees_with_incremental _ _ h⟩

/-! ## Claim C3: `deleteNode` postconditions -/

theorem JMap.get_filter_none {α β : Type} [DecidableEq α] (m : JMap α β)
    (R : List α) (k : α) (hk : k ∈ R) :
    JMap.get (m.filter (fun p => decide (p.1 ∉ R))) k = none := by
  apply JMap.get_eq_none_of_not_mem
  intro hmem
  rw [JMap.keys, List.mem_map] at hmem
  obtain ⟨p, hp, hpk⟩ := hmem
  have := List.of_mem_filter hp
  simp only [Function.comp_apply, decide_eq_true_eq] at this
  exact this (hpk ▸ hk)

/-- Claim C3: in a store satisfying the maintained invariant, `deleteNode`
on an existing node returns the removed node and, in the post-state, the
node is gone, every relation that had it as an endpoint is gone, no
remaining relation references it, and the deleted relation ids are removed
from every other node's incident set — all within the single call. -/
theorem deleteNode_postconditions (s : GraphState) (hInv : StoreInv s) (n : Nat)
    (node : Node) (hn : JMap.get s.nodes n = some node) :
    ∃ s', deleteNode s n = .ok (s', node) ∧
      JMap.get s'.nodes n = none ∧
      (∀ rid rel, JMap.get s.relations rid = some rel →
        rel.fromNodeId = n ∨ rel.toNodeId = n → JMap.get s'.relations rid = none) ∧
      (∀ rid rel, JMap.get s'.relations rid = some rel →
        rel.fromNodeId ≠ n ∧ rel.toNodeId ≠ n) ∧
      (∀ k, k ≠ n → ∀ rid rel, JMap.get s.relations rid = some rel →
        rel.fromNodeId = n ∨ rel.toNodeId = n →
        rid ∉ (JMap.get s'.nodeRelations k).getD []) := by
  cases hres : deleteNode s n with
  | error e =>
    rw [deleteNode, hn] at hres
    exact absurd hres (by simp)
  | ok p =>
    have hok : deleteNode s n = .ok (p.1, p.2) := by rw [hres]
    have hInv' : StoreInv p.1 := deleteNode_inv hok hInv
    have hmemN : n ∈ JMap.keys s.nodes :=
      List.mem_map_of_mem Prod.fst (JMap.get_mem _ _ _ hn)
    have hres0 := hres
    rw [deleteNode, hn] at hres
    simp only [Except.ok.injEq] at hres
    rw [Prod.ext_iff] at hres
    obtain ⟨hs', hnodeEq⟩ := hres
    simp only at hs' hnodeEq
    have hrelIds : (JMap.get s.nodeRelations n).getD [] =
        incidentList s.relations n := by
      rw [hInv.indexEq, JMap.get_mapform _ _ _ hmemN hInv.nodesNodup]
      rfl
    have hnodes' : p.1.nodes = s.nodes.filter (fun q => decide (q.1 ≠ n)) := by
      rw [← hs']
      rfl
    have hrels' : p.1.relations =
        s.relations.filter (fun q => decide (q.1 ∉ incidentList s.relations n)) := by
      have h0 : p.1.relations = List.foldl (fun m rid => JMap.del m rid) s.relations
          ((JMap.get s.nodeRelations n).getD []) := by
        rw [← hs']
      rw [h0, hrelIds]
      exact JMap.foldl_del_eq_filter _ s.relations
    have hmemInc : ∀ rid rel, JMap.get s.relations rid = some rel →
        rel.fromNodeId = n ∨ rel.toNodeId = n → rid ∈ incidentList s.relations n := by
      intro rid rel hget hend
      have hentry := JMap.get_mem _ _ _ hget
      have hid : rel.id = rid := hInv.relsKeyId (rid, rel) hentry
      have hval : rel ∈ JMap.values s.relations := List.mem_map_of_mem Prod.snd hentry
      rw [← hid, incidentList]
      exact List.mem_map_of_mem Relation.id
        (List.mem_filter.mpr ⟨hval, by simpa using hend⟩)
    have hidx' : p.1.nodeRelations =
        ((JMap.keys s.nodes).filter (fun k => decide (k ≠ n))).map
          (fun k => (k, (incidentList s.relations k).filter
            (fun x => decide (x ∉ incidentList s.relations n)))) := by
      have hidx0 : p.1.nodeRelations = JMap.del
          (List.map (fun q =>
            if q.1 = n then q
            else (q.1, List.foldl (fun st rid => JSet.del st rid) q.2
              ((JMap.get s.nodeRelations n).getD []))) s.nodeRelations) n := by
        rw [← hs']
      rw [hidx0, hrelIds, hInv.indexEq, JMap.del, List.map_map, List.filter_map]
      rw [List.filter_congr ?pc]
      case pc =>
        intro k hk
        show _ = decide (k ≠ n)
        by_cases hk2 : k = n <;> simp [hk2]
      apply List.map_congr_left
      intro k hk
      have hkne : k ≠ n := by simpa using (List.mem_filter.mp hk).2
      simp only [Function.comp_apply, if_neg hkne]
      rw [JSet.del_foldl_eq_filter]
    refine ⟨p.1, ?_, ?_, ?_, ?_, ?_⟩
    · have hpe : (p.1, node) = p := by rw [hnodeEq]
      rw [hpe]
    · rw [hnodes']
      exact JMap.get_eq_none_of_not_mem _ _ (by
        rw [JMap.keys, List.mem_map]
        rintro ⟨q, hq, hqk⟩
        have := List.of_mem_filter hq
        simp only [decide_eq_true_eq] at this
        exact this hqk)
    · intro rid rel hget hend
      rw [hrels']
      exact JMap.get_filter_none _ _ _ (hmemInc rid rel hget hend)
    · intro rid rel hget
      rw [hrels'] at hget
      have hentry := JMap.get_mem _ _ _ hget
      have hmem := List.of_mem_filter hentry
      simp only [decide_eq_true_eq] at hmem
      have hentry0 : (rid, rel) ∈ s.relations := List.mem_of_mem_filter hentry
      have hget0 : JMap.get s.relations rid = some rel :=
        JMap.mem_get _ _ _ hentry0 hInv.relsNodup
      constructor
      · intro he
        exact hmem (hmemInc rid rel hget0 (Or.inl he))
      · intro he
        exact hmem (hmemInc rid rel hget0 (Or.inr he))
    · intro k hkn rid rel hget hend
      have hridInc := hmemInc rid rel hget hend
      rw [hidx']
      by_cases hkmem : k ∈ JMap.keys s.nodes
      · rw [JMap.get_mapform _ _ _
          (List.mem_filter.mpr ⟨hkmem, by simpa using hkn⟩)
          (hInv.nodesNodup.filter _)]
        simp only [Option.getD_some]
        intro hmem
        have := List.of_mem_filter hmem
        simp only [decide_eq_true_eq] at this
        exact this hridInc
      · rw [JMap.get_mapform_none _ _ _
          (fun hc => hkmem (List.mem_filter.mp hc).1)]
        simp

/-- Witness for C3 at a concrete two-node store with one relation. -/
theorem deleteNode_postconditions_witness :
    StoreInv (GraphState.mk [(0, Node.mk 0 "A" []), (1, Node.mk 1 "B" [])]
      [(2, Relation.mk 2 "knows" 0 1 [])] [(0, [2]), (1, [2])] 3) ∧
    JMap.get (GraphState.mk [(0, Node.mk 0 "A" []), (1, Node.mk 1 "B" [])]
      [(2, Relation.mk 2 "knows" 0 1 [])] [(0, [2]), (1, [2])] 3).nodes 0 =
      some (Node.mk 0 "A" []) ∧
    ∃ s', deleteNode (GraphState.mk [(0, Node.mk 0 "A" []), (1, Node.mk 1 "B" [])]
        [(2, Relation.mk 2 "knows" 0 1 [])] [(0, [2]), (1, [2])] 3) 0 =
        .ok (s', Node.mk 0 "A" []) ∧
      JMap.get s'.nodes 0 = none ∧
      (∀ rid rel, JMap.get (GraphState.mk [(0, Node.mk 0 "A" []), (1, Node.mk 1 "B" [])]
          [(2, Relation.mk 2 "knows" 0 1 [])] [(0, [2]), (1, [2])] 3).relations rid =
          some rel →
        rel.fromNodeId = 0 ∨ rel.toNodeId = 0 → JMap.get s'.relations rid = none) ∧
      (∀ rid rel, JMap.get s'.relations rid = some rel →
        rel.fromNodeId ≠ 0 ∧ rel.toNodeId ≠ 0) ∧
      (∀ k, k ≠ 0 → ∀ rid rel,
        JMap.get (GraphState.mk [(0, Node.mk 0 "A" []), (1, Node.mk 1 "B" [])]
          [(2, Relation.mk 2 "knows" 0 1 [])] [(0, [2]), (1, [2])] 3).relations rid =
          some rel →
        rel.fromNodeId = 0 ∨ rel.toNodeId = 0 →
        rid ∉ (JMap.get s'.nodeRelations k).getD []) := by
  have hInv : StoreInv (GraphState.mk [(0, Node.mk 0 "A" []), (1, Node.mk 1 "B" [])]
      [(2, Relation.mk 2 "knows" 0 1 [])] [(0, [2]), (1, [2])] 3) := by
    constructor
    · decide
    · decide
    · decide
    · decide
    · decide
    · decide
    · decide
    · decide
  exact ⟨hInv, rfl, deleteNode_postconditions _ hInv 0 (Node.mk 0 "A" []) rfl⟩

/-! ## Claim C6: export/import round trip -/

theorem JMap.ofValues_aux {β : Type} (f : β → Nat) (l : List (Nat × β))
    (acc : JMap Nat β) (hid : ∀ p ∈ l, f p.2 = p.1)
    (hnd : (JMap.keys (acc ++ l)).Nodup) :
    (l.map Prod.snd).foldl (fun m x => JMap.set m (f x) x) acc = acc ++ l := by
  induction l generalizing acc with
  | nil => simp
  | cons q rest ih =>
    obtain ⟨k, v⟩ := q
    have hkv : f v = k := hid (k, v) (List.mem_cons_self _ _)
    have hknotacc : k ∉ JMap.keys acc := by
      intro hmem
      rw [JMap.keys, List.map_append] at hnd
      have := (List.nodup_append.mp hnd).2.2
      exact this hmem (by simp)
    simp only [List.map_cons, List.foldl_cons, hkv]
    rw [JMap.set_fresh acc k v hknotacc]
    have := ih (acc ++ [(k, v)])
      (fun p hp => hid p (List.mem_cons_of_mem _ hp))
      (by rw [List.append_assoc]; simpa using hnd)
    rw [this, List.append_assoc]
    rfl

/-- Claim C6: exporting a store and importing the snapshot into any other
store (for example a fresh one) reproduces the node map, the relation map
and the `nodeRelations` index structurally. -/
theorem export_import_roundtrip (s : GraphState) (hInv : StoreInv s)
    (t : GraphState) :
    ∃ s', importData t (exportData s) = .ok s' ∧
      s'.nodes = s.nodes ∧ s'.relations = s.relations ∧
      s'.nodeRelations = s.nodeRelations := by
  have hnodes : (exportData s).nodes.foldl (fun m n => JMap.set m n.id n) [] =
      s.nodes := by
    have := JMap.ofValues_aux Node.id s.nodes [] hInv.nodesKeyId
      (by simpa using hInv.nodesNodup)
    simpa [exportData, JMap.values] using this
  have hrels : (exportData s).relations.foldl (fun m r => JMap.set m r.id r) [] =
      s.relations := by
    have := JMap.ofValues_aux Relation.id s.relations [] hInv.relsKeyId
      (by simpa using hInv.relsNodup)
    simpa [exportData, JMap.values] using this
  refine ⟨GraphState.mk s.nodes s.relations s.nodeRelations t.idCounter,
    ?_, rfl, rfl, rfl⟩
  rw [importData]
  simp only [hnodes, hrels]
  rw [rebuild_eq_of_inv hInv]

/-- Witness for C6 at a concrete two-node store imported into a fresh
store. -/
theorem export_import_roundtrip_witness :
    StoreInv (GraphState.mk [(0, Node.mk 0 "A" []), (1, Node.mk 1 "B" [])]
      [(2, Relation.mk 2 "knows" 0 1 [])] [(0, [2]), (1, [2])] 3) ∧
    ∃ s', importData emptyStore (exportData
        (GraphState.mk [(0, Node.mk 0 "A" []), (1, Node.mk 1 "B" [])]
          [(2, Relation.mk 2 "knows" 0 1 [])] [(0, [2]), (1, [2])] 3)) = .ok s' ∧
      s'.nodes = (GraphState.mk [(0, Node.mk 0 "A" []), (1, Node.mk 1 "B" [])]
        [(2, Relation.mk 2 "knows" 0 1 [])] [(0, [2]), (1, [2])] 3).nodes ∧
      s'.relations = (GraphState.mk [(0, Node.mk 0 "A" []), (1, Node.mk 1 "B" [])]
        [(2, Relation.mk 2 "knows" 0 1 [])] [(0, [2]), (1, [2])] 3).relations ∧
      s'.nodeRelations = (GraphState.mk [(0, Node.mk 0 "A" []), (1, Node.mk 1 "B" [])]
        [(2, Relation.mk 2 "knows" 0 1 [])] [(0, [2]), (1, [2])] 3).nodeRelations := by
  have hInv : StoreInv (GraphState.mk [(0, Node.mk 0 "A" []), (1, Node.mk 1 "B" [])]
      [(2, Relation.mk 2 "knows" 0 1 [])] [(0, [2]), (1, [2])] 3) := by
    constructor
    · decide
    · decide
    · decide
    · decide
    · decide
    · decide
    · decide
    · decide
  exact ⟨hInv, export_import_roundtrip _ hInv emptyStore⟩

/-! ## Claim C7: `updateNode` merge semantics -/

theorem metaGet_append (l1 l2 : List (String × JValue)) (k : String) :
    metaGet (l1 ++ l2) k =
      match metaGet l1 k with
      | some v => some v
      | none => metaGet l2 k := by
  induction l1 with
  | nil => simp [metaGet]
  | cons p rest ih =>
    by_cases h : p.1 = k
    · rw [List.cons_append, show (p :: rest : List (String × JValue)) = (p.1, p.2) :: rest by rfl]
      simp [metaGet, h]
    · rw [List.cons_append, show (p :: rest : List (String × JValue)) = (p.1, p.2) :: rest by rfl]
      simp only [metaGet, if_neg h]
      exact ih

theorem metaGet_map_override (old m : List (String × JValue)) (k : String) :
    metaGet (old.map (fun p =>
      match metaGet m p.1 with
      | some v => (p.1, v)
      | none => p)) k =
      match metaGet old k with
      | none => none
      | some w => some ((metaGet m k).getD w) := by
  induction old with
  | nil => simp [metaGet]
  | cons p rest ih =>
    by_cases h : p.1 = k
    · subst h
      cases hv : metaGet m p.1 <;>
        simp [metaGet, hv, List.map_cons]
    · cases hv : metaGet m p.1 <;>
        simp only [List.map_cons, hv, metaGet, if_neg h, ih]

theorem metaGet_filter_keyprop (m : List (String × JValue)) (P : String → Bool)
    (k : String) :
    metaGet (m.filter (fun p => P p.1)) k = if P k then metaGet m k else none := by
  induction m with
  | nil => simp [metaGet]
  | cons p rest ih =>
    by_cases hP : P p.1
    · by_cases h : p.1 = k
      · subst h
        simp [List.filter_cons, hP, metaGet, ih]
      · simp [List.filter_cons, hP, metaGet, h, ih]
    · by_cases h : p.1 = k
      · subst h
        simp [List.filter_cons, hP, metaGet, ih]
      · simp [List.filter_cons, hP, metaGet, h, ih]

theorem metaGet_spreadMerge (old m : List (String × JValue)) (k : String) :
    metaGet (spreadMerge old m) k =
      match metaGet m k with
      | some v => some v
      | none => metaGet old k := by
  rw [spreadMerge, metaGet_append, metaGet_map_override,
    metaGet_filter_keyprop m (fun s => (metaGet old s).isNone) k]
  cases ho : metaGet old k <;> cases hm : metaGet m k <;> simp [ho, hm]

/-- Claim C7: for an existing node, a metadata update shallow-merges (keys
of the update overwrite, prior keys are preserved; in particular
`{b: 2}` updated with `{a: 1}` yields `{a: 1, b: 2}`), and a name update
is a full replacement. -/
theorem updateNode_shallow_merge :
    (∀ (s : GraphState) (nodeId : Nat) (node : Node)
      (m : List (String × JValue)), JMap.get s.nodes nodeId = some node →
      ∃ s' n', updateNode s nodeId { metadata := some m } = .ok (s', n') ∧
        n'.name = node.name ∧
        (∀ k v, metaGet m k = some v → metaGet n'.metadata k = some v) ∧
        (∀ k, metaGet m k = none → metaGet n'.metadata k = metaGet node.metadata k)) ∧
    (∀ (s : GraphState) (nodeId : Nat) (node : Node) (nm : String),
      JMap.get s.nodes nodeId = some node →
      ∃ s' n', updateNode s nodeId { name := some nm } = .ok (s', n') ∧
        n'.name = nm ∧ n'.metadata = node.metadata) ∧
    ((updateNode (GraphState.mk [(0, Node.mk 0 "n" [("b", .num 2)])] [] [(0, [])] 1)
        0 { metadata := some [("a", .num 1)] }).map (fun p =>
        (metaGet p.2.metadata "a", metaGet p.2.metadata "b")) =
      .ok (some (.num 1), some (.num 2))) := by
  refine ⟨?_, ?_, rfl⟩
  · intro s nodeId node m hget
    have heq : updateNode s nodeId { metadata := some m } =
        .ok (GraphState.mk
          (JMap.set s.nodes nodeId
            (Node.mk node.id node.name (spreadMerge node.metadata m)))
          s.relations s.nodeRelations s.idCounter,
          Node.mk node.id node.name (spreadMerge node.metadata m)) := by
      rw [updateNode, hget]
    refine ⟨_, _, heq, rfl, ?_, ?_⟩
    · intro k v hk
      show metaGet (spreadMerge node.metadata m) k = some v
      rw [metaGet_spreadMerge, hk]
    · intro k hk
      show metaGet (spreadMerge node.metadata m) k = metaGet node.metadata k
      rw [metaGet_spreadMerge, hk]
  · intro s nodeId node nm hget
    have heq : updateNode s nodeId { name := some nm } =
        .ok (GraphState.mk
          (JMap.set s.nodes nodeId (Node.mk node.id nm node.metadata))
          s.relations s.nodeRelations s.idCounter,
          Node.mk node.id nm node.metadata) := by
      rw [updateNode, hget]
    exact ⟨_, _, heq, rfl, rfl⟩

/-- Witness for C7 at the concrete `{b: 2}` + `{a: 1}` example. -/
theorem updateNode_shallow_merge_witness :
    JMap.get (GraphState.mk [(0, Node.mk 0 "n" [("b", JValue.num 2)])] [] [(0, [])] 1).nodes
      0 = some (Node.mk 0 "n" [("b", JValue.num 2)]) ∧
    ∃ s' n', updateNode
        (GraphState.mk [(0, Node.mk 0 "n" [("b", JValue.num 2)])] [] [(0, [])] 1) 0
        { metadata := some [("a", JValue.num 1)] } = .ok (s', n') ∧
      n'.name = (Node.mk 0 "n" [("b", JValue.num 2)]).name ∧
      (∀ k v, metaGet [("a", JValue.num 1)] k = some v →
        metaGet n'.metadata k = some v) ∧
      (∀ k, metaGet [("a", JValue.num 1)] k = none →
        metaGet n'.metadata k = metaGet (Node.mk 0 "n" [("b", JValue.num 2)]).metadata k) := by
  exact ⟨rfl, updateNode_shallow_merge.1 _ 0 _ [("a", JValue.num 1)] rfl⟩

/-! ## Claim C10: unrecognized condition keys -/

/-- Claim C10: a condition tree whose top-level keys all lie outside the
recognized set (including the empty tree) matches every entity, so
`searchNodes`/`searchRelations` return every node/relation. -/
theorem unrecognized_keys_match_all (conds : List CondEntry)
    (h : ∀ c ∈ conds, ∃ k v, c = CondEntry.extra k v ∧
      k ∉ ["id", "name", "fromNodeId", "toNodeId", "metadata", "cosineSimilarity"]) :
    (∀ e, matchesConditions e conds = .ok true) ∧
    (∀ s, searchNodes s conds = .ok (JMap.values s.nodes)) ∧
    (∀ s, searchRelations s conds = .ok (JMap.values s.relations)) := by
  have hm : ∀ e, matchesConditions e conds = .ok true := by
    intro e
    induction conds with
    | nil => rfl
    | cons c rest ih =>
      obtain ⟨k, v, rfl, -⟩ := h c (List.mem_cons_self _ _)
      rw [matchesConditions]
      exact ih (fun c hc => h c (List.mem_cons_of_mem _ hc))
  refine ⟨hm, ?_, ?_⟩
  · intro s
    rw [searchNodes]
    induction JMap.values s.nodes with
    | nil => rfl
    | cons n rest ih =>
      rw [searchNodesGo, hm (.node n), ih]
      rfl
  · intro s
    rw [searchRelations]
    induction JMap.values s.relations with
    | nil => rfl
    | cons r rest ih =>
      rw [searchRelationsGo, hm (.rel r), ih]
      rfl

/-- Witness for C10 at a concrete condition tree and store. -/
theorem unrecognized_keys_match_all_witness :
    (∀ c ∈ [CondEntry.extra "foo" JValue.null, CondEntry.extra "bar" (JValue.num 3)],
      ∃ k v, c = CondEntry.extra k v ∧
        k ∉ ["id", "name", "fromNodeId", "toNodeId", "metadata", "cosineSimilarity"]) ∧
    searchNodes (GraphState.mk [(0, Node.mk 0 "A" []), (1, Node.mk 1 "B" [])] []
        [(0, []), (1, [])] 2)
      [CondEntry.extra "foo" JValue.null, CondEntry.extra "bar" (JValue.num 3)] =
      .ok [Node.mk 0 "A" [], Node.mk 1 "B" []] := by
  have h : ∀ c ∈ [CondEntry.extra "foo" JValue.null,
      CondEntry.extra "bar" (JValue.num 3)],
      ∃ k v, c = CondEntry.extra k v ∧
        k ∉ ["id", "name", "fromNodeId", "toNodeId", "metadata", "cosineSimilarity"] := by
    intro c hc
    rcases List.mem_cons.mp hc with rfl | hc
    · exact ⟨"foo", JValue.null, rfl, by decide⟩
    rcases List.mem_cons.mp hc with rfl | hc
    · exact ⟨"bar", JValue.num 3, rfl, by decide⟩
    · simp at hc
  exact ⟨h, (unrecognized_keys_match_all _ h).2.1 _⟩

/-! ## Claim C5: comparison operators on an absent metadata key -/

theorem jsCompare_none_left (b : Option JValue) : jsCompare none b = none := rfl

theorem jsLe_none_left (b : Option JValue) : jsLe none b = false := by
  rw [jsLe, jsCompare_none_left]

theorem jsLt_none_left (b : Option JValue) : jsLt none b = false := by
  rw [jsLt, jsCompare_none_left]
  rfl

theorem jsGe_none_left (b : Option JValue) : jsGe none b = false := by
  rw [jsGe, jsCompare_none_left]

theorem jsGt_none_left (b : Option JValue) : jsGt none b = false := by
  rw [jsGt, jsCompare_none_left]
  rfl

/-- Counterexample to claim C5 as stated: an entity whose metadata lacks
key `k` PASSES a `{k: {gt: 0}}` metadata condition (the JS comparison
`undefined <= 0` is false, so the failure branch is never taken), and the
entity IS returned by `searchNodes` — the claim predicts `false`/not
returned. -/
theorem absent_key_comparison_counterexample :
    matchesMetadataConditions [] [("k", MetaCondVal.ops { gt := some (JValue.num 0) })] =
      .ok true ∧
    searchNodes (GraphState.mk [(0, Node.mk 0 "A" [])] [] [(0, [])] 1)
      [CondEntry.metadata [("k", MetaCondVal.ops { gt := some (JValue.num 0) })]] =
      .ok [Node.mk 0 "A" []] := ⟨rfl, rfl⟩

/-- Amended C5: when the stored value is absent (`undefined`) every
comparison operator check (`gt`, `gte`, `lt`, `lte`) passes vacuously and
no error is thrown: the condition entry behaves as matching, so the entity
is not excluded. -/
theorem absent_key_comparison_passes (md : List (String × JValue)) (k : String)
    (o : OpCond) (rest : List (String × MetaCondVal))
    (habsent : metaGet md k = none)
    (heq : o.eq = none) (hne2 : o.ne = none) (hcontains : o.contains = none)
    (hsw : o.startsWith = none) (hew : o.endsWith = none) (hin : o.inVals = none)
    (hcos : o.cosineSimilarity = none) :
    matchesMetadataConditions md ((k, MetaCondVal.ops o) :: rest) =
      matchesMetadataConditions md rest := by
  rw [matchesMetadataConditions]
  simp only [habsent, heq, hne2, hcontains, hsw, hew, hin, hcos,
    jsLe_none_left, jsLt_none_left, jsGe_none_left, jsGt_none_left,
    Option.isSome_none, Bool.false_and, Bool.and_false, if_false, Bool.false_eq_true,
    ite_false]

/-- Witness for the amended C5: a `gt` condition on an absent key leaves
the remaining conditions to decide the match (here: trivially `true`). -/
theorem absent_key_comparison_passes_witness :
    metaGet [("other", JValue.num 7)] "k" = none ∧
    matchesMetadataConditions [("other", JValue.num 7)]
      [("k", MetaCondVal.ops { gt := some (JValue.num 0) })] =
      matchesMetadataConditions [("other", JValue.num 7)] [] := by
  exact ⟨rfl, absent_key_comparison_passes _ "k" _ [] rfl rfl rfl rfl rfl rfl rfl rfl⟩

/-! ## Claim C4: malformed stored embeddings in the similarity searches -/

theorem isArrayU_iff (ov : Option JValue) :
    isArrayU ov = true ↔ ∃ xs, ov = some (JValue.arr xs) := by
  cases ov with
  | none => simp [isArrayU]
  | some v => cases v <;> simp [isArrayU]

/-- Equal-length array arguments never make `cosineSimilarity` throw. -/
theorem cosineSimilarity_ne_err_of_length (a b : List JValue)
    (hlen : a.length = b.length) (msg : String) :
    cosineSimilarity (some (.arr a)) (some (.arr b)) ≠ .err msg := by
  rw [cosineSimilarity, if_neg (by simp [hlen])]
  split
  · simp
  · dsimp only
    split
    · simp
    · split <;> simp

theorem mem_insertDesc {α : Type} (x y : α × SimVal) (l : List (α × SimVal)) :
    y ∈ insertDesc x l ↔ y = x ∨ y ∈ l := by
  induction l with
  | nil => simp [insertDesc]
  | cons z rest ih =>
    rw [insertDesc]
    split
    · simp only [List.mem_cons, ih]
      tauto
    · simp [List.mem_cons]

theorem mem_sortBySimDesc {α : Type} (l : List (α × SimVal)) (y : α × SimVal) :
    y ∈ sortBySimDesc l ↔ y ∈ l := by
  rw [sortBySimDesc]
  have haux : ∀ (l : List (α × SimVal)) (acc : List (α × SimVal)),
      y ∈ l.foldl (fun acc x => insertDesc x acc) acc ↔ y ∈ acc ∨ y ∈ l := by
    intro l
    induction l with
    | nil => simp
    | cons z rest ih =>
      intro acc
      rw [List.foldl_cons, ih, mem_insertDesc]
      simp only [List.mem_cons]
      tauto
  rw [haux]
  simp

theorem collectSimNodes_ok (q : List JValue) (key : String) (t : ℚ) (l : List Node)
    (hlen : ∀ n ∈ l, ∀ xs, metaGet n.metadata key = some (JValue.arr xs) →
      xs.length = q.length) :
    ∃ res, collectSimNodes (some (.arr q)) key t l = .ok res ∧
      ∀ p ∈ res, isArrayU (metaGet p.1.metadata key) = true := by
  induction l with
  | nil => exact ⟨[], rfl, by simp⟩
  | cons n rest ih =>
    obtain ⟨res, hres, hmem⟩ := ih (fun n' h' => hlen n' (List.mem_cons_of_mem _ h'))
    rw [collectSimNodes]
    by_cases harr : isArrayU (metaGet n.metadata key) = true
    · obtain ⟨xs, hxs⟩ := (isArrayU_iff _).mp harr
      have hxlen := hlen n (List.mem_cons_self _ _) xs hxs
      simp only [harr, if_true]
      cases hcos : cosineSimilarity (some (.arr q)) (metaGet n.metadata key) with
      | err m =>
        rw [hxs] at hcos
        exact absurd hcos (cosineSimilarity_ne_err_of_length q xs hxlen.symm m)
      | zero =>
        by_cases hge : simGeB (0, 1) t = true
        · simp only [hge, if_true, hres, Except.map]
          exact ⟨_, rfl, by
            intro p hp
            rcases List.mem_cons.mp hp with rfl | hp
            · exact harr
            · exact hmem p hp⟩
        · simp only [hge, if_false, Bool.false_eq_true, hres]
          exact ⟨res, rfl, hmem⟩
      | nan => exact ⟨res, hres, hmem⟩
      | ratio d a b =>
        by_cases hge : simGeB (d, a * b) t = true
        · simp only [hge, if_true, hres, Except.map]
          exact ⟨_, rfl, by
            intro p hp
            rcases List.mem_cons.mp hp with rfl | hp
            · exact harr
            · exact hmem p hp⟩
        · simp only [hge, if_false, Bool.false_eq_true, hres]
          exact ⟨res, rfl, hmem⟩
    · simp only [Bool.not_eq_true] at harr
      simp only [harr, Bool.false_eq_true, if_false]
      exact ⟨res, hres, hmem⟩

theorem collectSimRelations_ok (q : List JValue) (key : String) (t : ℚ)
    (l : List Relation)
    (hlen : ∀ r ∈ l, ∀ xs, metaGet r.metadata key = some (JValue.arr xs) →
      xs.length = q.length) :
    ∃ res, collectSimRelations (some (.arr q)) key t l = .ok res ∧
      ∀ p ∈ res, isArrayU (metaGet p.1.metadata key) = true := by
  induction l with
  | nil => exact ⟨[], rfl, by simp⟩
  | cons n rest ih =>
    obtain ⟨res, hres, hmem⟩ := ih (fun n' h' => hlen n' (List.mem_cons_of_mem _ h'))
    rw [collectSimRelations]
    by_cases harr : isArrayU (metaGet n.metadata key) = true
    · obtain ⟨xs, hxs⟩ := (isArrayU_iff _).mp harr
      have hxlen := hlen n (List.mem_cons_self _ _) xs hxs
      simp only [harr, if_true]
      cases hcos : cosineSimilarity (some (.arr q)) (metaGet n.metadata key) with
      | err m =>
        rw [hxs] at hcos
        exact absurd hcos (cosineSimilarity_ne_err_of_length q xs hxlen.symm m)
      | zero =>
        by_cases hge : simGeB (0, 1) t = true
        · simp only [hge, if_true, hres, Except.map]
          exact ⟨_, rfl, by
            intro p hp
            rcases List.mem_cons.mp hp with rfl | hp
            · exact harr
            · exact hmem p hp⟩
        · simp only [hge, if_false, Bool.false_eq_true, hres]
          exact ⟨res, rfl, hmem⟩
      | nan => exact ⟨res, hres, hmem⟩
      | ratio d a b =>
        by_cases hge : simGeB (d, a * b) t = true
        · simp only [hge, if_true, hres, Except.map]
          exact ⟨_, rfl, by
            intro p hp
            rcases List.mem_cons.mp hp with rfl | hp
            · exact harr
            · exact hmem p hp⟩
        · simp only [hge, if_false, Bool.false_eq_true, hres]
          exact ⟨res, rfl, hmem⟩
    · simp only [Bool.not_eq_true] at harr
      simp only [harr, Bool.false_eq_true, if_false]
      exact ⟨res, hres, hmem⟩

/-- Counterexample to claim C4 as stated: a single stored node whose
embedding is an array of a different length than the query makes
`searchNodesByCosineSimilarity` throw, aborting the whole search (there is
no try/catch around the per-entity `cosineSimilarity` call). -/
theorem mismatched_embedding_aborts_search :
    searchNodesByCosineSimilarity
      (GraphState.mk
        [(0, Node.mk 0 "A" [("embedding", JValue.arr [JValue.num 1, JValue.num 2])])]
        [] [(0, [])] 1)
      (some (JValue.arr [JValue.num 1])) {} =
      .error "Vectors must have the same length" := rfl

/-- Amended C4: entities whose metadata embedding is missing or not an
array are skipped without error (they never appear in the result), and if
every array-valued embedding has the query's length both similarity
searches complete normally; but an array embedding of a different length
raises an error that aborts the whole search (see the counterexample). -/
theorem wellformed_embeddings_search_ok (s : GraphState) (qs : List JValue)
    (opts : SimSearchOptions) (hq : qs ≠ [])
    (hlenN : ∀ n ∈ JMap.values s.nodes, ∀ xs,
      metaGet n.metadata opts.embeddingKey = some (JValue.arr xs) →
      xs.length = qs.length)
    (hlenR : ∀ r ∈ JMap.values s.relations, ∀ xs,
      metaGet r.metadata opts.embeddingKey = some (JValue.arr xs) →
      xs.length = qs.length) :
    (∃ l, searchNodesByCosineSimilarity s (some (JValue.arr qs)) opts = .ok l ∧
      ∀ p ∈ l, isArrayU (metaGet p.1.metadata opts.embeddingKey) = true) ∧
    (∃ l, searchRelationsByCosineSimilarity s (some (JValue.arr qs)) opts = .ok l ∧
      ∀ p ∈ l, isArrayU (metaGet p.1.metadata opts.embeddingKey) = true) := by
  have hne : isNonEmptyArrayU (some (JValue.arr qs)) = true := by
    cases qs with
    | nil => exact absurd rfl hq
    | cons x xs => rfl
  constructor
  · obtain ⟨res, hres, hmem⟩ :=
      collectSimNodes_ok qs opts.embeddingKey opts.threshold (JMap.values s.nodes) hlenN
    refine ⟨(sortBySimDesc res).take opts.limit, ?_, ?_⟩
    · rw [searchNodesByCosineSimilarity, if_neg (by simp [hne]), hres]
      rfl
    · intro p hp
      exact hmem p ((mem_sortBySimDesc res p).mp (List.take_subset _ _ hp))
  · obtain ⟨res, hres, hmem⟩ :=
      collectSimRelations_ok qs opts.embeddingKey opts.threshold
        (JMap.values s.relations) hlenR
    refine ⟨(sortBySimDesc res).take opts.limit, ?_, ?_⟩
    · rw [searchRelationsByCosineSimilarity, if_neg (by simp [hne]), hres]
      rfl
    · intro p hp
      exact hmem p ((mem_sortBySimDesc res p).mp (List.take_subset _ _ hp))

/-- Witness for the amended C4: a store whose only embeddings are a
missing one and a non-array one; both searches complete and return no
skipped entity. -/
theorem wellformed_embeddings_search_ok_witness :
    ([JValue.num 1] ≠ ([] : List JValue)) ∧
    (∀ n ∈ JMap.values (GraphState.mk
        [(0, Node.mk 0 "A" []), (1, Node.mk 1 "B" [("embedding", JValue.str "oops")])]
        [] [(0, []), (1, [])] 2).nodes, ∀ xs,
      metaGet n.metadata "embedding" = some (JValue.arr xs) → xs.length = 1) ∧
    (∃ l, searchNodesByCosineSimilarity (GraphState.mk
        [(0, Node.mk 0 "A" []), (1, Node.mk 1 "B" [("embedding", JValue.str "oops")])]
        [] [(0, []), (1, [])] 2)
        (some (JValue.arr [JValue.num 1])) {} = .ok l ∧
      ∀ p ∈ l, isArrayU (metaGet p.1.metadata "embedding") = true) := by
  have hq : [JValue.num 1] ≠ ([] : List JValue) := by simp
  have hlenN : ∀ n ∈ JMap.values (GraphState.mk
      [(0, Node.mk 0 "A" []), (1, Node.mk 1 "B" [("embedding", JValue.str "oops")])]
      [] [(0, []), (1, [])] 2).nodes, ∀ xs,
      metaGet n.metadata "embedding" = some (JValue.arr xs) → xs.length = 1 := by
    intro n hn xs hxs
    simp only [JMap.values, List.map_cons, List.map_nil, List.mem_cons,
      List.not_mem_nil, or_false] at hn
    rcases hn with rfl | rfl <;> simp [metaGet] at hxs
  have h := wellformed_embeddings_search_ok (GraphState.mk
      [(0, Node.mk 0 "A" []), (1, Node.mk 1 "B" [("embedding", JValue.str "oops")])]
      [] [(0, []), (1, [])] 2) [JValue.num 1] {} hq hlenN
    (by intro r hr xs hxs; simp [JMap.values] at hr)
  exact ⟨hq, hlenN, h.1⟩

/-! ## Claim C9: cosineSimilarity error, zero and range behaviour -/

theorem sumLoop_eq_sum (f : Nat → Option ℚ) (g : Nat → ℚ) (n : Nat)
    (h : ∀ i, i < n → f i = some (g i)) :
    sumLoop f n = some (∑ i ∈ Finset.range n, g i) := by
  induction n with
  | zero => simp [sumLoop]
  | succ n ih =>
    rw [sumLoop, ih (fun i hi => h i (Nat.lt_succ_of_lt hi)), h n (Nat.lt_succ_self n),
      Finset.sum_range_succ]
    rfl

theorem sumLoop_isSome (f : Nat → Option ℚ) (n : Nat) (s : ℚ)
    (h : sumLoop f n = some s) : ∀ i, i < n → (f i).isSome = true := by
  induction n generalizing s with
  | zero => intro i hi; exact absurd hi (Nat.not_lt_zero i)
  | succ n ih =>
    intro i hi
    rw [sumLoop] at h
    cases hprev : sumLoop f n with
    | none => rw [hprev] at h; exact absurd h (by simp [optAdd])
    | some s0 =>
      rw [hprev] at h
      cases hfn : f n with
      | none => rw [hfn] at h; exact absurd h (by simp [optAdd])
      | some q =>
        rcases Nat.lt_succ_iff_lt_or_eq.mp hi with hlt | rfl
        · exact ih s0 hprev i hlt
        · simp [hfn]

theorem optMul_isSome (u v : Option ℚ) (h : (optMul u v).isSome = true) :
    u.isSome = true ∧ v.isSome = true := by
  cases u <;> cases v <;> simp [optMul] at h ⊢

theorem eq_some_getD (u : Option ℚ) (h : u.isSome = true) : u = some (u.getD 0) := by
  cases u with
  | none => simp at h
  | some q => rfl

/-- The `ratio` outcome arises only from two array arguments of equal
nonzero length whose three accumulators all evaluated to numbers. -/
theorem cosineSimilarity_ratio_inv (va vb : Option JValue) (d x y : ℚ)
    (h : cosineSimilarity va vb = .ratio d x y) :
    ∃ a b : List JValue, va = some (JValue.arr a) ∧ vb = some (JValue.arr b) ∧
      a.length = b.length ∧ a.length ≠ 0 ∧
      sumLoop (jsMulAt a b) a.length = some d ∧
      sumLoop (jsMulAt a a) a.length = some x ∧
      sumLoop (jsMulAt b b) a.length = some y := by
  cases va with
  | none =>
    cases vb with
    | none => exact CosResult.noConfusion h
    | some w => cases w <;> exact CosResult.noConfusion h
  | some v =>
    cases vb with
    | none => cases v <;> exact CosResult.noConfusion h
    | some w =>
      cases v with
      | null => cases w <;> exact CosResult.noConfusion h
      | bool b0 => cases w <;> exact CosResult.noConfusion h
      | num q0 => cases w <;> exact CosResult.noConfusion h
      | str s0 => cases w <;> exact CosResult.noConfusion h
      | obj o0 => cases w <;> exact CosResult.noConfusion h
      | arr a =>
        cases w with
        | null => exact CosResult.noConfusion h
        | bool b0 => exact CosResult.noConfusion h
        | num q0 => exact CosResult.noConfusion h
        | str s0 => exact CosResult.noConfusion h
        | obj o0 => exact CosResult.noConfusion h
        | arr b =>
          rw [cosineSimilarity] at h
          split at h
          next hne => exact CosResult.noConfusion h
          next hne =>
            split at h
            next h0 => exact CosResult.noConfusion h
            next h0 =>
              dsimp only at h
              split at h
              next hz => exact CosResult.noConfusion h
              next hz =>
                cases hdot : sumLoop (jsMulAt a b) a.length with
                | none =>
                  rw [hdot] at h
                  exact CosResult.noConfusion
                    (show CosResult.nan = CosResult.ratio d x y from h)
                | some d0 =>
                  rw [hdot] at h
                  cases hma : sumLoop (jsMulAt a a) a.length with
                  | none =>
                    rw [hma] at h
                    exact CosResult.noConfusion
                      (show CosResult.nan = CosResult.ratio d x y from h)
                  | some x0 =>
                    rw [hma] at h
                    cases hmb : sumLoop (jsMulAt b b) a.length with
                    | none =>
                      rw [hmb] at h
                      exact CosResult.noConfusion
                        (show CosResult.nan = CosResult.ratio d x y from h)
                    | some y0 =>
                      rw [hmb] at h
                      have h1 : CosResult.ratio d0 x0 y0 = CosResult.ratio d x y := h
                      injection h1 with hd1 hx1 hy1
                      subst hd1
                      subst hx1
                      subst hy1
                      exact ⟨a, b, rfl, rfl, not_not.mp hne, h0, hdot, hma, hmb⟩

/-- Counterexample to claim C9 as stated: two equal-length vectors with
non-numeric (string) entries do NOT make `cosineSimilarity` fail — the
accumulators become `NaN` and the function returns `NaN` (never an error),
because the code checks only `Array.isArray` and the lengths. -/
theorem cosineSimilarity_nonnumeric_counterexample :
    cosineSimilarity (some (JValue.arr [JValue.str "a"]))
        (some (JValue.arr [JValue.str "b"])) = .nan ∧
    ∀ msg, cosineSimilarity (some (JValue.arr [JValue.str "a"]))
        (some (JValue.arr [JValue.str "b"])) ≠ .err msg := by
  have h1 : cosineSimilarity (some (JValue.arr [JValue.str "a"]))
      (some (JValue.arr [JValue.str "b"])) = .nan := rfl
  refine ⟨h1, fun msg h => ?_⟩
  rw [h1] at h
  exact CosResult.noConfusion h

/-- Claim C9 (amended): `cosineSimilarity` errors exactly on non-array
arguments or an array length mismatch (a non-numeric entry gives `NaN`,
not an error); equal empty arrays give `0`; a zero sum of squares on
either side gives `0`; and a `ratio d x y` outcome denotes the float
`d / (√x·√y)`, which always lies in `[-1, 1]`. -/
theorem cosineSimilarity_err_zero_range :
    (∀ va vb : Option JValue,
      (∀ a b : List JValue, ¬ (va = some (JValue.arr a) ∧ vb = some (JValue.arr b))) →
      cosineSimilarity va vb = .err "Both vectors must be arrays") ∧
    (∀ a b : List JValue, a.length ≠ b.length →
      cosineSimilarity (some (JValue.arr a)) (some (JValue.arr b)) =
        .err "Vectors must have the same length") ∧
    (∀ a b : List JValue, a.length = b.length → ∀ msg,
      cosineSimilarity (some (JValue.arr a)) (some (JValue.arr b)) ≠ .err msg) ∧
    (∀ a b : List JValue, a.length = b.length → a.length = 0 →
      cosineSimilarity (some (JValue.arr a)) (some (JValue.arr b)) = .zero) ∧
    (∀ a b : List JValue, ∀ qa qb : ℚ, a.length = b.length → a.length ≠ 0 →
      sumLoop (jsMulAt a a) a.length = some qa →
      sumLoop (jsMulAt b b) a.length = some qb →
      qa = 0 ∨ qb = 0 →
      cosineSimilarity (some (JValue.arr a)) (some (JValue.arr b)) = .zero) ∧
    (∀ va vb : Option JValue, ∀ d x y : ℚ,
      cosineSimilarity va vb = .ratio d x y →
      -1 ≤ (d : ℝ) / (Real.sqrt (x : ℝ) * Real.sqrt (y : ℝ)) ∧
      (d : ℝ) / (Real.sqrt (x : ℝ) * Real.sqrt (y : ℝ)) ≤ 1) := by
  refine ⟨?_, ?_, ?_, ?_, ?_, ?_⟩
  · intro va vb hno
    cases va with
    | none =>
      cases vb with
      | none => rfl
      | some w => cases w <;> rfl
    | some v =>
      cases vb with
      | none => cases v <;> rfl
      | some w =>
        cases v <;> cases w <;> first
          | rfl
          | exact absurd ⟨rfl, rfl⟩ (hno _ _)
  · intro a b hlen
    rw [cosineSimilarity, if_pos hlen]
  · exact fun a b h msg => cosineSimilarity_ne_err_of_length a b h msg
  · intro a b hlen h0
    rw [cosineSimilarity, if_neg (by simp [hlen]), if_pos h0]
  · intro a b qa qb hlen h0 hqa hqb hz
    rw [cosineSimilarity, if_neg (by simp [hlen]), if_neg h0]
    dsimp only
    rw [hqa, hqb]
    rcases hz with rfl | rfl <;> simp [sqrtIsZero]
  · intro va vb d x y h
    obtain ⟨a, b, rfl, rfl, hlen, h0, hdot, hma, hmb⟩ :=
      cosineSimilarity_ratio_inv va vb d x y h
    have hga : ∀ i, i < a.length →
        jsToNumberU (a.get? i) = some ((jsToNumberU (a.get? i)).getD 0) := by
      intro i hi
      have hs := sumLoop_isSome _ _ _ hma i hi
      rw [jsMulAt] at hs
      exact eq_some_getD _ (optMul_isSome _ _ hs).1
    have hgb : ∀ i, i < a.length →
        jsToNumberU (b.get? i) = some ((jsToNumberU (b.get? i)).getD 0) := by
      intro i hi
      have hs := sumLoop_isSome _ _ _ hmb i hi
      rw [jsMulAt] at hs
      exact eq_some_getD _ (optMul_isSome _ _ hs).1
    have hd2 : sumLoop (jsMulAt a b) a.length =
        some (∑ i ∈ Finset.range a.length,
          ((jsToNumberU (a.get? i)).getD 0) * ((jsToNumberU (b.get? i)).getD 0)) :=
      sumLoop_eq_sum _ _ _ (fun i hi => by rw [jsMulAt, hga i hi, hgb i hi]; rfl)
    have hx2 : sumLoop (jsMulAt a a) a.length =
        some (∑ i ∈ Finset.range a.length, ((jsToNumberU (a.get? i)).getD 0) ^ 2) :=
      sumLoop_eq_sum _ _ _ (fun i hi => by
        rw [jsMulAt, hga i hi]; simp [optMul, pow_two])
    have hy2 : sumLoop (jsMulAt b b) a.length =
        some (∑ i ∈ Finset.range a.length, ((jsToNumberU (b.get? i)).getD 0) ^ 2) :=
      sumLoop_eq_sum _ _ _ (fun i hi => by
        rw [jsMulAt, hgb i hi]; simp [optMul, pow_two])
    have hdq := Option.some.inj (hdot.symm.trans hd2)
    have hxq := Option.some.inj (hma.symm.trans hx2)
    have hyq := Option.some.inj (hmb.symm.trans hy2)
    have hx0 : (0 : ℚ) ≤ x := by
      rw [hxq]; exact Finset.sum_nonneg (fun i _ => sq_nonneg _)
    have hy0 : (0 : ℚ) ≤ y := by
      rw [hyq]; exact Finset.sum_nonneg (fun i _ => sq_nonneg _)
    have hcs : d ^ 2 ≤ x * y := by
      rw [hdq, hxq, hyq]
      exact Finset.sum_mul_sq_le_sq_mul_sq _ _ _
    have hxy : ((d : ℝ)) ^ 2 ≤ (x : ℝ) * (y : ℝ) := by exact_mod_cast hcs
    have hx0r : (0 : ℝ) ≤ (x : ℝ) := by exact_mod_cast hx0
    have habs : |(d : ℝ)| ≤ Real.sqrt (x : ℝ) * Real.sqrt (y : ℝ) := by
      rw [← Real.sqrt_mul hx0r]
      exact Real.abs_le_sqrt hxy
    have hs0 : (0 : ℝ) ≤ Real.sqrt (x : ℝ) * Real.sqrt (y : ℝ) :=
      mul_nonneg (Real.sqrt_nonneg _) (Real.sqrt_nonneg _)
    rcases eq_or_lt_of_le hs0 with hzr | hpos
    · have hd0 : |(d : ℝ)| ≤ 0 := by rw [hzr]; exact habs
      have hdz : (d : ℝ) = 0 := abs_eq_zero.mp (le_antisymm hd0 (abs_nonneg _))
      rw [hdz, zero_div]
      norm_num
    · have h1 : |(d : ℝ) / (Real.sqrt (x : ℝ) * Real.sqrt (y : ℝ))| ≤ 1 := by
        rw [abs_div, abs_of_pos hpos]
        exact (div_le_one hpos).mpr habs
      exact abs_le.mp h1

/-- Witness: the amended C9 theorem applied to a concrete length
mismatch. -/
theorem cosineSimilarity_err_zero_range_witness :
    ([JValue.str "u"].length ≠ [JValue.str "v", JValue.str "w"].length) ∧
    cosineSimilarity (some (JValue.arr [JValue.str "u"]))
        (some (JValue.arr [JValue.str "v", JValue.str "w"])) =
      .err "Vectors must have the same length" :=
  ⟨by decide, cosineSimilarity_err_zero_range.2.1 [JValue.str "u"]
      [JValue.str "v", JValue.str "w"] (by decide)⟩

/-! ## Claim C2: traversal termination and relation-once -/

theorem foldl_inv {α β : Type} (l : List α) (f : β → α → β) (P : β → Prop)
    (hstep : ∀ b a, P b → P (f b a)) :
    ∀ acc, P acc → P (l.foldl f acc) := by
  induction l with
  | nil => exact fun acc h => h
  | cons a rest ih =>
    intro acc h
    rw [List.foldl_cons]
    exact ih (f acc a) (hstep acc a h)

theorem foldl_congr_inv {α β : Type} (l : List α) (f g : β → α → β) (P : β → Prop)
    (hstep : ∀ b a, P b → f b a = g b a ∧ P (f b a)) :
    ∀ acc, P acc → l.foldl f acc = l.foldl g acc ∧ P (l.foldl f acc) := by
  induction l with
  | nil => exact fun acc h => ⟨rfl, h⟩
  | cons a rest ih =>
    intro acc h
    obtain ⟨heq, hP⟩ := hstep acc a h
    rw [List.foldl_cons, List.foldl_cons, ← heq]
    exact ih (f acc a) hP

theorem nodup_subset_length {α : Type} (l m : List α) (h1 : l.Nodup) (h2 : l ⊆ m) :
    l.length ≤ m.length :=
  (h1.subperm h2).length_le

/-- Through any `travNode` run, `visitedRelations` stays duplicate-free,
stays inside the relation keys, only grows at the tail, and the emitted
result triplets' relation ids are exactly `visitedRelations` (ids and keys
agree). -/
theorem travNode_visited (g : GraphState) (opts : TraverseOptions)
    (hid : ∀ p ∈ g.relations, p.2.id = p.1) :
    ∀ fuel nodeId depth st,
      st.visitedRelations.Nodup →
      (∀ r ∈ st.visitedRelations, r ∈ JMap.keys g.relations) →
      st.result.map (fun t => t.2.1.id) = st.visitedRelations →
      (travNode g opts fuel nodeId depth st).visitedRelations.Nodup ∧
      (∀ r ∈ (travNode g opts fuel nodeId depth st).visitedRelations,
        r ∈ JMap.keys g.relations) ∧
      (travNode g opts fuel nodeId depth st).result.map (fun t => t.2.1.id) =
        (travNode g opts fuel nodeId depth st).visitedRelations ∧
      ∃ t, st.visitedRelations ++ t = (travNode g opts fuel nodeId depth st).visitedRelations := by
  intro fuel
  induction fuel with
  | zero =>
    intro nodeId depth st h1 h2 h3
    exact ⟨h1, h2, h3, [], List.append_nil _⟩
  | succ fuel ih =>
    intro nodeId depth st h1 h2 h3
    rw [travNode]
    by_cases hc : (depthExceeds opts.maxDepth depth || st.visitedNodes.contains nodeId) = true
    · simp only [if_pos hc]
      exact ⟨h1, h2, h3, [], List.append_nil _⟩
    · simp only [if_neg hc]
      refine foldl_inv _ _ (fun b : TravState => b.visitedRelations.Nodup ∧
        (∀ r ∈ b.visitedRelations, r ∈ JMap.keys g.relations) ∧
        b.result.map (fun t => t.2.1.id) = b.visitedRelations ∧
        ∃ t, st.visitedRelations ++ t = b.visitedRelations) ?_ _ ⟨h1, h2, h3, [], List.append_nil _⟩
      intro b a hP
      obtain ⟨hb1, hb2, hb3, t0, ht0⟩ := hP
      by_cases hca : b.visitedRelations.contains a = true
      · simp only [if_pos hca]
        exact ⟨hb1, hb2, hb3, t0, ht0⟩
      · simp only [if_neg hca]
        cases hget : JMap.get g.relations a with
        | none => exact ⟨hb1, hb2, hb3, t0, ht0⟩
        | some rel =>
          by_cases hname : (truthyName opts.relationName = true ∧
            rel.name ≠ opts.relationName.getD "")
          · simp only [if_pos hname]
            exact ⟨hb1, hb2, hb3, t0, ht0⟩
          · simp only [if_neg hname]
            by_cases hdir : ¬ (opts.directions.contains
                (if rel.fromNodeId = nodeId then Dir.outgoing else Dir.incoming) = true)
            · simp only [if_pos hdir]
              exact ⟨hb1, hb2, hb3, t0, ht0⟩
            · simp only [if_neg hdir]
              cases hother : JMap.get g.nodes
                  (if rel.fromNodeId = nodeId then rel.toNodeId else rel.fromNodeId) with
              | none => exact ⟨hb1, hb2, hb3, t0, ht0⟩
              | some otherNode =>
                have ha : a ∈ JMap.keys g.relations :=
                  List.mem_map_of_mem Prod.fst (JMap.get_mem _ _ _ hget)
                have hfresh : a ∉ b.visitedRelations := by simpa using hca
                have hn1 : (b.visitedRelations ++ [a]).Nodup := by
                  simp [List.nodup_append, hb1, hfresh]
                have hn2 : ∀ r ∈ b.visitedRelations ++ [a], r ∈ JMap.keys g.relations := by
                  intro r hr
                  rcases List.mem_append.mp hr with hr | hr
                  · exact hb2 r hr
                  · rw [List.mem_singleton.mp hr]; exact ha
                have hn3 : (b.result ++ [(JMap.get g.nodes nodeId, rel, otherNode)]).map
                    (fun t => t.2.1.id) = b.visitedRelations ++ [a] := by
                  rw [List.map_append, hb3]
                  have hra : rel.id = a := hid (a, rel) (JMap.get_mem _ _ _ hget)
                  simp [hra]
                obtain ⟨hr1, hr2, hr3, t1, ht1⟩ := ih
                  (if rel.fromNodeId = nodeId then rel.toNodeId else rel.fromNodeId)
                  (depth + 1)
                  { b with visitedRelations := b.visitedRelations ++ [a],
                           result := b.result ++ [(JMap.get g.nodes nodeId, rel, otherNode)] }
                  hn1 hn2 hn3
                refine ⟨hr1, hr2, hr3, t0 ++ [a] ++ t1, ?_⟩
                rw [← ht1]
                have hacc : ({ b with visitedRelations := b.visitedRelations ++ [a],
                                      result := b.result ++
                                        [(JMap.get g.nodes nodeId, rel, otherNode)] } :
                    TravState).visitedRelations = b.visitedRelations ++ [a] := rfl
                rw [hacc, ← ht0]
                simp [List.append_assoc]

/-- Fuel independence of `travNode`: any two fuel amounts above the number
of not-yet-visited relation keys give the same run (this is the
termination of the JS recursion). -/
theorem travNode_fuel_eq (g : GraphState) (opts : TraverseOptions)
    (hid : ∀ p ∈ g.relations, p.2.id = p.1) :
    ∀ fuel1 fuel2 nodeId depth st,
      st.visitedRelations.Nodup →
      (∀ r ∈ st.visitedRelations, r ∈ JMap.keys g.relations) →
      st.result.map (fun t => t.2.1.id) = st.visitedRelations →
      (JMap.keys g.relations).length - st.visitedRelations.length < fuel1 →
      (JMap.keys g.relations).length - st.visitedRelations.length < fuel2 →
      travNode g opts fuel1 nodeId depth st = travNode g opts fuel2 nodeId depth st := by
  intro fuel1
  induction fuel1 with
  | zero =>
    intro fuel2 nodeId depth st _ _ _ h4 _
    omega
  | succ fuel ih =>
    intro fuel2 nodeId depth st h1 h2 h3 h4 h5
    cases fuel2 with
    | zero => omega
    | succ fuel2 =>
      rw [travNode]
      rw [travNode]
      by_cases hc : (depthExceeds opts.maxDepth depth || st.visitedNodes.contains nodeId) = true
      · simp only [if_pos hc]
      · simp only [if_neg hc]
        refine (foldl_congr_inv _ _ _ (fun b : TravState => b.visitedRelations.Nodup ∧
          (∀ r ∈ b.visitedRelations, r ∈ JMap.keys g.relations) ∧
          b.result.map (fun t => t.2.1.id) = b.visitedRelations ∧
          st.visitedRelations.length ≤ b.visitedRelations.length)
          ?_ { st with visitedNodes := st.visitedNodes ++ [nodeId] }
          ⟨h1, h2, h3, Nat.le_refl _⟩).1
        intro b a hP
        obtain ⟨hb1, hb2, hb3, hb4⟩ := hP
        by_cases hca : b.visitedRelations.contains a = true
        · simp only [if_pos hca]
          exact ⟨trivial, hb1, hb2, hb3, hb4⟩
        · simp only [if_neg hca]
          cases hget : JMap.get g.relations a with
          | none => exact ⟨rfl, hb1, hb2, hb3, hb4⟩
          | some rel =>
            by_cases hname : (truthyName opts.relationName = true ∧
              rel.name ≠ opts.relationName.getD "")
            · simp only [if_pos hname]
              exact ⟨trivial, hb1, hb2, hb3, hb4⟩
            · simp only [if_neg hname]
              by_cases hdir : ¬ (opts.directions.contains
                  (if rel.fromNodeId = nodeId then Dir.outgoing else Dir.incoming) = true)
              · simp only [if_pos hdir]
                exact ⟨trivial, hb1, hb2, hb3, hb4⟩
              · simp only [if_neg hdir]
                cases hother : JMap.get g.nodes
                    (if rel.fromNodeId = nodeId then rel.toNodeId else rel.fromNodeId) with
                | none => exact ⟨rfl, hb1, hb2, hb3, hb4⟩
                | some otherNode =>
                  have ha : a ∈ JMap.keys g.relations :=
                    List.mem_map_of_mem Prod.fst (JMap.get_mem _ _ _ hget)
                  have hfresh : a ∉ b.visitedRelations := by simpa using hca
                  have hn1 : (b.visitedRelations ++ [a]).Nodup := by
                    simp [List.nodup_append, hb1, hfresh]
                  have hn2 : ∀ r ∈ b.visitedRelations ++ [a], r ∈ JMap.keys g.relations := by
                    intro r hr
                    rcases List.mem_append.mp hr with hr | hr
                    · exact hb2 r hr
                    · rw [List.mem_singleton.mp hr]; exact ha
                  have hn3 : (b.result ++ [(JMap.get g.nodes nodeId, rel, otherNode)]).map
                      (fun t => t.2.1.id) = b.visitedRelations ++ [a] := by
                    rw [List.map_append, hb3]
                    have hra : rel.id = a := hid (a, rel) (JMap.get_mem _ _ _ hget)
                    simp [hra]
                  have hlen : (b.visitedRelations ++ [a]).length ≤
                      (JMap.keys g.relations).length :=
                    nodup_subset_length _ _ hn1 (fun r hr => hn2 r hr)
                  have hbnd1 : (JMap.keys g.relations).length -
                      (b.visitedRelations ++ [a]).length < fuel := by
                    simp only [List.length_append, List.length_singleton] at hlen ⊢
                    omega
                  have hbnd2 : (JMap.keys g.relations).length -
                      (b.visitedRelations ++ [a]).length < fuel2 := by
                    simp only [List.length_append, List.length_singleton] at hlen ⊢
                    omega
                  refine ⟨ih fuel2
                    (if rel.fromNodeId = nodeId then rel.toNodeId else rel.fromNodeId)
                    (depth + 1)
                    { b with visitedRelations := b.visitedRelations ++ [a],
                             result := b.result ++ [(JMap.get g.nodes nodeId, rel, otherNode)] }
                    hn1 hn2 hn3 hbnd1 hbnd2, ?_⟩
                  obtain ⟨hr1, hr2, hr3, t1, ht1⟩ := travNode_visited g opts hid fuel
                    (if rel.fromNodeId = nodeId then rel.toNodeId else rel.fromNodeId)
                    (depth + 1)
                    { b with visitedRelations := b.visitedRelations ++ [a],
                             result := b.result ++ [(JMap.get g.nodes nodeId, rel, otherNode)] }
                    hn1 hn2 hn3
                  refine ⟨hr1, hr2, hr3, ?_⟩
                  rw [← ht1]
                  have hacc : ({ b with visitedRelations := b.visitedRelations ++ [a],
                                        result := b.result ++
                                          [(JMap.get g.nodes nodeId, rel, otherNode)] } :
                      TravState).visitedRelations = b.visitedRelations ++ [a] := rfl
                  rw [hacc]
                  simp only [List.length_append, List.length_singleton]
                  omega

/-- Through any `travRel` run, `visited` stays duplicate-free and only
grows at the tail, and the emitted triplets' relation ids form a sublist
of `visited` (ids and keys agree). -/
theorem travRel_visited (g : GraphState) (maxDepth : Option Nat)
    (hid : ∀ p ∈ g.relations, p.2.id = p.1) :
    ∀ fuel relationId depth st,
      st.visited.Nodup →
      List.Sublist (st.result.map (fun t => t.2.1.id)) st.visited →
      (travRel g maxDepth fuel relationId depth st).visited.Nodup ∧
      List.Sublist ((travRel g maxDepth fuel relationId depth st).result.map
        (fun t => t.2.1.id)) (travRel g maxDepth fuel relationId depth st).visited ∧
      ∃ t, st.visited ++ t = (travRel g maxDepth fuel relationId depth st).visited := by
  intro fuel
  induction fuel with
  | zero =>
    intro relationId depth st h1 h2
    exact ⟨h1, h2, [], List.append_nil _⟩
  | succ fuel ih =>
    intro relationId depth st h1 h2
    rw [travRel]
    by_cases hd : depthExceeds maxDepth depth = true
    · simp only [if_pos hd]
      exact ⟨h1, h2, [], List.append_nil _⟩
    · simp only [if_neg hd]
      by_cases hc : st.visited.contains relationId = true
      · simp only [if_pos hc]
        exact ⟨h1, h2, [], List.append_nil _⟩
      · simp only [if_neg hc]
        have hfresh : relationId ∉ st.visited := by simpa using hc
        have hn1 : (st.visited ++ [relationId]).Nodup := by
          simp [List.nodup_append, h1, hfresh]
        have hsub1 : List.Sublist (st.result.map (fun t => t.2.1.id))
            (st.visited ++ [relationId]) :=
          h2.trans (List.sublist_append_left _ _)
        cases hget : JMap.get g.relations relationId with
        | none => exact ⟨hn1, hsub1, [relationId], rfl⟩
        | some rel =>
          dsimp only
          cases hfrom : JMap.get g.nodes rel.fromNodeId with
          | none => exact ⟨hn1, hsub1, [relationId], rfl⟩
          | some fromNode =>
            cases hto : JMap.get g.nodes rel.toNodeId with
            | none => exact ⟨hn1, hsub1, [relationId], rfl⟩
            | some toNode =>
              have hrid : rel.id = relationId :=
                hid (relationId, rel) (JMap.get_mem _ _ _ hget)
              have hsub2 : List.Sublist
                  ((st.result ++ [(some fromNode, rel, toNode)]).map (fun t => t.2.1.id))
                  (st.visited ++ [relationId]) := by
                rw [List.map_append]
                simp only [List.map_cons, List.map_nil, hrid]
                exact List.Sublist.append h2 (List.Sublist.refl _)
              refine foldl_inv _ _ (fun b : TravRState => b.visited.Nodup ∧
                List.Sublist (b.result.map (fun t => t.2.1.id)) b.visited ∧
                ∃ t, st.visited ++ t = b.visited) ?_
                ({ visited := st.visited ++ [relationId],
                   result := st.result ++ [(some fromNode, rel, toNode)] } : TravRState)
                ⟨hn1, hsub2, [relationId], rfl⟩
              intro b nid hPb
              refine foldl_inv _ _ (fun b : TravRState => b.visited.Nodup ∧
                List.Sublist (b.result.map (fun t => t.2.1.id)) b.visited ∧
                ∃ t, st.visited ++ t = b.visited) ?_ b hPb
              intro b2 crid hPb2
              obtain ⟨hb1, hb2, t0, ht0⟩ := hPb2
              by_cases hcc : b2.visited.contains crid = true
              · simp only [if_pos hcc]
                exact ⟨hb1, hb2, t0, ht0⟩
              · simp only [if_neg hcc]
                obtain ⟨hr1, hr2, t1, ht1⟩ := ih crid (depth + 1) b2 hb1 hb2
                exact ⟨hr1, hr2, t0 ++ t1, by rw [← ht1, ← ht0, List.append_assoc]⟩

/-- Fuel independence of `travRel`: any two fuel amounts above the number
of not-yet-visited relation keys give the same run. -/
theorem travRel_fuel_eq (g : GraphState) (maxDepth : Option Nat)
    (hid : ∀ p ∈ g.relations, p.2.id = p.1) :
    ∀ fuel1 fuel2 relationId depth st,
      st.visited.Nodup →
      List.Sublist (st.result.map (fun t => t.2.1.id)) st.visited →
      (JMap.keys g.relations).length -
        (st.visited.filter (fun r => (JMap.keys g.relations).contains r)).length < fuel1 →
      (JMap.keys g.relations).length -
        (st.visited.filter (fun r => (JMap.keys g.relations).contains r)).length < fuel2 →
      travRel g maxDepth fuel1 relationId depth st =
        travRel g maxDepth fuel2 relationId depth st := by
  intro fuel1
  induction fuel1 with
  | zero =>
    intro fuel2 relationId depth st _ _ h3 _
    omega
  | succ fuel ih =>
    intro fuel2 relationId depth st h1 h2 h3 h4
    cases fuel2 with
    | zero => omega
    | succ fuel2 =>
      rw [travRel]
      rw [travRel]
      by_cases hd : depthExceeds maxDepth depth = true
      · simp only [if_pos hd]
      · simp only [if_neg hd]
        by_cases hc : st.visited.contains relationId = true
        · simp only [if_pos hc]
        · simp only [if_neg hc]
          have hfresh : relationId ∉ st.visited := by simpa using hc
          have hn1 : (st.visited ++ [relationId]).Nodup := by
            simp [List.nodup_append, h1, hfresh]
          cases hget : JMap.get g.relations relationId with
          | none => rfl
          | some rel =>
            dsimp only
            cases hfrom : JMap.get g.nodes rel.fromNodeId with
            | none => rfl
            | some fromNode =>
              cases hto : JMap.get g.nodes rel.toNodeId with
              | none => rfl
              | some toNode =>
                have hrid : rel.id = relationId :=
                  hid (relationId, rel) (JMap.get_mem _ _ _ hget)
                have hrk : relationId ∈ JMap.keys g.relations :=
                  List.mem_map_of_mem Prod.fst (JMap.get_mem _ _ _ hget)
                have hwk : (JMap.keys g.relations).contains relationId = true := by
                  simpa using hrk
                have hsub2 : List.Sublist
                    ((st.result ++ [(some fromNode, rel, toNode)]).map (fun t => t.2.1.id))
                    (st.visited ++ [relationId]) := by
                  rw [List.map_append]
                  simp only [List.map_cons, List.map_nil, hrid]
                  exact List.Sublist.append h2 (List.Sublist.refl _)
                have hcnt : (st.visited.filter
                      (fun r => (JMap.keys g.relations).contains r)).length + 1 ≤
                    ((st.visited ++ [relationId]).filter
                      (fun r => (JMap.keys g.relations).contains r)).length := by
                  rw [List.filter_append, List.length_append]
                  simp [List.filter_cons, hwk, hrk]
                refine (foldl_congr_inv _ _ _ (fun b : TravRState => b.visited.Nodup ∧
                  List.Sublist (b.result.map (fun t => t.2.1.id)) b.visited ∧
                  (st.visited.filter (fun r => (JMap.keys g.relations).contains r)).length + 1 ≤
                    (b.visited.filter (fun r => (JMap.keys g.relations).contains r)).length)
                  ?_
                  ({ visited := st.visited ++ [relationId],
                     result := st.result ++ [(some fromNode, rel, toNode)] } : TravRState)
                  ⟨hn1, hsub2, hcnt⟩).1
                intro b nid hPb
                refine foldl_congr_inv _ _ _ (fun b : TravRState => b.visited.Nodup ∧
                  List.Sublist (b.result.map (fun t => t.2.1.id)) b.visited ∧
                  (st.visited.filter (fun r => (JMap.keys g.relations).contains r)).length + 1 ≤
                    (b.visited.filter (fun r => (JMap.keys g.relations).contains r)).length)
                  ?_ b hPb
                intro b2 crid hPb2
                obtain ⟨hb1, hb2, hb3⟩ := hPb2
                by_cases hcc : b2.visited.contains crid = true
                · simp only [if_pos hcc]
                  exact ⟨trivial, hb1, hb2, hb3⟩
                · simp only [if_neg hcc]
                  have hble : (b2.visited.filter
                      (fun r => (JMap.keys g.relations).contains r)).length ≤
                      (JMap.keys g.relations).length := by
                    refine nodup_subset_length _ _ (hb1.filter _) ?_
                    intro r hr
                    have := List.of_mem_filter hr
                    simpa using this
                  have hbnd1 : (JMap.keys g.relations).length -
                      (b2.visited.filter (fun r => (JMap.keys g.relations).contains r)).length <
                      fuel := by omega
                  have hbnd2 : (JMap.keys g.relations).length -
                      (b2.visited.filter (fun r => (JMap.keys g.relations).contains r)).length <
                      fuel2 := by omega
                  refine ⟨ih fuel2 crid (depth + 1) b2 hb1 hb2 hbnd1 hbnd2, ?_⟩
                  obtain ⟨hr1, hr2, t1, ht1⟩ :=
                    travRel_visited g maxDepth hid fuel crid (depth + 1) b2 hb1 hb2
                  refine ⟨hr1, hr2, ?_⟩
                  rw [← ht1, List.filter_append, List.length_append]
                  omega

/-- Claim C2: both traversals terminate on every store (the run is
independent of any fuel at or above `travFuel`, i.e. the JS recursion
reaches its fixpoint), no relation id appears in more than one emitted
triplet, and on the 3-node ring A→B→C→A the outgoing unbounded traversal
from A returns exactly the 3 triplets. -/
theorem traversal_terminates_relation_once (s : GraphState)
    (hid : ∀ p ∈ s.relations, p.2.id = p.1) :
    (∀ (opts : TraverseOptions) (startNodeId : Nat) (fuel : Nat), travFuel s ≤ fuel →
      travNode s opts fuel startNodeId 0 ⟨[], [], []⟩ =
        travNode s opts (travFuel s) startNodeId 0 ⟨[], [], []⟩) ∧
    (∀ (maxDepth : Option Nat) (startRelationId : Nat) (fuel : Nat), travFuel s ≤ fuel →
      travRel s maxDepth fuel startRelationId 0 ⟨[], []⟩ =
        travRel s maxDepth (travFuel s) startRelationId 0 ⟨[], []⟩) ∧
    (∀ (opts : TraverseOptions) (startNodeId : Nat),
      ((traverseFromNode s startNodeId opts).map (fun t => t.2.1.id)).Nodup) ∧
    (∀ (maxDepth : Option Nat) (startRelationId : Nat),
      ((traverseFromRelation s startRelationId maxDepth).map (fun t => t.2.1.id)).Nodup) ∧
    (traverseFromNode
      (GraphState.mk
        [(0, Node.mk 0 "A" []), (1, Node.mk 1 "B" []), (2, Node.mk 2 "C" [])]
        [(3, Relation.mk 3 "knows" 0 1 []), (4, Relation.mk 4 "knows" 1 2 []),
         (5, Relation.mk 5 "knows" 2 0 [])]
        [(0, [3, 5]), (1, [3, 4]), (2, [4, 5])] 6)
      0 { maxDepth := none, directions := [Dir.outgoing], relationName := none } =
      [(some (Node.mk 0 "A" []), Relation.mk 3 "knows" 0 1 [], Node.mk 1 "B" []),
       (some (Node.mk 1 "B" []), Relation.mk 4 "knows" 1 2 [], Node.mk 2 "C" []),
       (some (Node.mk 2 "C" []), Relation.mk 5 "knows" 2 0 [], Node.mk 0 "A" [])]) := by
  have hkl : (JMap.keys s.relations).length = s.relations.length := List.length_map _ _
  refine ⟨?_, ?_, ?_, ?_, rfl⟩
  · intro opts startNodeId fuel hf
    refine travNode_fuel_eq s opts hid fuel (travFuel s) startNodeId 0 ⟨[], [], []⟩
      List.nodup_nil (fun r hr => absurd hr (List.not_mem_nil r)) rfl ?_ ?_
    · have hlt : (JMap.keys s.relations).length < fuel := by
        rw [hkl]; simp only [travFuel] at hf; omega
      simpa using hlt
    · have hlt : (JMap.keys s.relations).length < travFuel s := by
        rw [hkl]; simp only [travFuel]; omega
      simpa using hlt
  · intro maxDepth startRelationId fuel hf
    refine travRel_fuel_eq s maxDepth hid fuel (travFuel s) startRelationId 0 ⟨[], []⟩
      List.nodup_nil (List.nil_sublist _) ?_ ?_
    · have hlt : (JMap.keys s.relations).length < fuel := by
        rw [hkl]; simp only [travFuel] at hf; omega
      simpa using hlt
    · have hlt : (JMap.keys s.relations).length < travFuel s := by
        rw [hkl]; simp only [travFuel]; omega
      simpa using hlt
  · intro opts startNodeId
    obtain ⟨hn, hk, hmap, ht⟩ := travNode_visited s opts hid (travFuel s) startNodeId 0
      ⟨[], [], []⟩ List.nodup_nil (fun r hr => absurd hr (List.not_mem_nil r)) rfl
    rw [traverseFromNode, hmap]
    exact hn
  · intro maxDepth startRelationId
    rw [traverseFromRelation]
    cases hget : JMap.get s.relations startRelationId with
    | none => simp
    | some r0 =>
      obtain ⟨hn, hsub, ht⟩ := travRel_visited s maxDepth hid (travFuel s) startRelationId 0
        ⟨[], []⟩ List.nodup_nil (List.nil_sublist _)
      exact hn.sublist hsub

/-- Witness: the C2 theorem applied to the concrete 3-ring store. -/
theorem traversal_terminates_relation_once_witness :
    (∀ p ∈ (GraphState.mk
        [(0, Node.mk 0 "A" []), (1, Node.mk 1 "B" []), (2, Node.mk 2 "C" [])]
        [(3, Relation.mk 3 "knows" 0 1 []), (4, Relation.mk 4 "knows" 1 2 []),
         (5, Relation.mk 5 "knows" 2 0 [])]
        [(0, [3, 5]), (1, [3, 4]), (2, [4, 5])] 6).relations, p.2.id = p.1) ∧
    ((traverseFromNode
      (GraphState.mk
        [(0, Node.mk 0 "A" []), (1, Node.mk 1 "B" []), (2, Node.mk 2 "C" [])]
        [(3, Relation.mk 3 "knows" 0 1 []), (4, Relation.mk 4 "knows" 1 2 []),
         (5, Relation.mk 5 "knows" 2 0 [])]
        [(0, [3, 5]), (1, [3, 4]), (2, [4, 5])] 6)
      0 { maxDepth := none, directions := [Dir.outgoing], relationName := none }).map
        (fun t => t.2.1.id)).Nodup := by
  have h := traversal_terminates_relation_once
    (GraphState.mk
      [(0, Node.mk 0 "A" []), (1, Node.mk 1 "B" []), (2, Node.mk 2 "C" [])]
      [(3, Relation.mk 3 "knows" 0 1 []), (4, Relation.mk 4 "knows" 1 2 []),
       (5, Relation.mk 5 "knows" 2 0 [])]
      [(0, [3, 5]), (1, [3, 4]), (2, [4, 5])] 6) (by decide)
  exact ⟨by decide,
    h.2.2.1 { maxDepth := none, directions := [Dir.outgoing], relationName := none } 0⟩

/-! ## Claim C8: searchAndTraverse with hops = 0 -/

/-- `buildNode` stops immediately past the depth guard. -/
theorem buildNodeH_stop (g : GraphState) (maxHops : Nat) (dirs : List Dir)
    (endOnNode : Bool) (sim : Option SimVal) (gas : Nat) (n : Node) (depth : Nat)
    (visited : HVisited) (hd : depth > maxHops ∨ (true, n.id) ∈ visited) :
    buildNodeH g maxHops dirs endOnNode sim gas n depth visited =
      (.nodeRes n (if depth = 0 then sim else none) [] [], visited) := by
  cases gas with
  | zero => rw [buildNodeH]
  | succ gas => rw [buildNodeH, if_pos hd]

/-- With `maxHops = 0` a fresh root node gets no children. -/
theorem buildNodeH_zero_succ (g : GraphState) (dirs : List Dir) (endOnNode : Bool)
    (sim : Option SimVal) (gas : Nat) (n : Node) (visited : HVisited)
    (hnv : (true, n.id) ∉ visited) :
    buildNodeH g 0 dirs endOnNode sim (gas + 1) n 0 visited =
      (.nodeRes n sim [] [], visited ++ [(true, n.id)]) := by
  rw [buildNodeH, if_neg (by simp [hnv]), if_pos (Nat.le_refl 0)]
  simp

/-- With `maxHops = 0` and `endOnNode` unset a fresh root relation gets no
endpoint nodes. -/
theorem buildRelationH_zero_succ_noend (g : GraphState) (dirs : List Dir)
    (sim : Option SimVal) (gas : Nat) (r : Relation) (visited : HVisited)
    (hnv : (false, r.id) ∉ visited) :
    buildRelationH g 0 dirs false sim (gas + 1) r 0 visited =
      (.relRes r sim none none, visited ++ [(false, r.id)]) := by
  rw [buildRelationH, if_neg (by simp [hnv]), if_pos ⟨Nat.le_refl 0, by simp⟩]
  simp

/-- With `maxHops = 0` and `endOnNode` set a fresh root relation gets
depth-terminated endpoint stubs with empty child arrays. -/
theorem buildRelationH_zero_succ_end (g : GraphState) (dirs : List Dir)
    (sim : Option SimVal) (gas : Nat) (r : Relation) (visited : HVisited)
    (hnv : (false, r.id) ∉ visited) :
    buildRelationH g 0 dirs true sim (gas + 1) r 0 visited =
      (.relRes r sim
        ((JMap.get g.nodes r.fromNodeId).map (fun fn => HResult.nodeRes fn none [] []))
        ((JMap.get g.nodes r.toNodeId).map (fun tn => HResult.nodeRes tn none [] [])),
       visited ++ [(false, r.id)]) := by
  rw [buildRelationH, if_neg (by simp [hnv]), if_neg (by simp)]
  cases hf : JMap.get g.nodes r.fromNodeId with
  | none =>
    cases ht : JMap.get g.nodes r.toNodeId with
    | none => simp
    | some tn => simp [buildNodeH_stop]
  | some fn =>
    cases ht : JMap.get g.nodes r.toNodeId with
    | none => simp [buildNodeH_stop]
    | some tn => simp [buildNodeH_stop]

theorem buildH_node_zero (s : GraphState) (dirs : List Dir) (endOnNode : Bool)
    (sim : Option SimVal) (n : Node) :
    buildHierarchicalStructure s (.node n) 0 dirs endOnNode sim =
      .nodeRes n sim [] [] := by
  show (buildNodeH s 0 dirs endOnNode sim (7 + 1) n 0 []).1 = _
  rw [buildNodeH_zero_succ s dirs endOnNode sim 7 n [] (by simp)]

theorem buildH_rel_zero_noend (s : GraphState) (dirs : List Dir)
    (sim : Option SimVal) (r : Relation) :
    buildHierarchicalStructure s (.rel r) 0 dirs false sim =
      .relRes r sim none none := by
  show (buildRelationH s 0 dirs false sim (7 + 1) r 0 []).1 = _
  rw [buildRelationH_zero_succ_noend s dirs sim 7 r [] (by simp)]

theorem buildH_rel_zero_end (s : GraphState) (dirs : List Dir)
    (sim : Option SimVal) (r : Relation) :
    buildHierarchicalStructure s (.rel r) 0 dirs true sim =
      .relRes r sim
        ((JMap.get s.nodes r.fromNodeId).map (fun fn => HResult.nodeRes fn none [] []))
        ((JMap.get s.nodes r.toNodeId).map (fun tn => HResult.nodeRes tn none [] [])) := by
  show (buildRelationH s 0 dirs true sim (7 + 1) r 0 []).1 = _
  rw [buildRelationH_zero_succ_end s dirs sim 7 r [] (by simp)]

/-- Claim C8: with `hops = 0` the search returns exactly the ranked,
filtered seeds, each as a stub: node seeds carry empty outgoing/incoming
arrays; relation seeds carry no endpoint nodes when `endOnNode` is unset,
and unexpanded endpoint stubs (empty child arrays) when it is set. -/
theorem searchAndTraverse_hops_zero (s : GraphState) (q : Option JValue)
    (opts : SearchTraverseOptions) (h0 : opts.hops = 0) :
    (opts.endOnNode = false →
      searchAndTraverse s q opts = (pickTopMatches s q opts).map (fun tops =>
        tops.map (fun m => match m.1 with
          | .node n => HResult.nodeRes n (some m.2) [] []
          | .rel r => HResult.relRes r (some m.2) none none))) ∧
    (opts.endOnNode = true →
      searchAndTraverse s q opts = (pickTopMatches s q opts).map (fun tops =>
        tops.map (fun m => match m.1 with
          | .node n => HResult.nodeRes n (some m.2) [] []
          | .rel r => HResult.relRes r (some m.2)
              ((JMap.get s.nodes r.fromNodeId).map
                (fun fn => HResult.nodeRes fn none [] []))
              ((JMap.get s.nodes r.toNodeId).map
                (fun tn => HResult.nodeRes tn none [] []))))) := by
  constructor
  · intro hend
    rw [searchAndTraverse]
    cases hp : pickTopMatches s q opts with
    | error e => rfl
    | ok tops =>
      simp only [Except.map]
      congr 1
      refine List.map_congr_left ?_
      intro m _
      obtain ⟨ent, v⟩ := m
      cases ent with
      | node n =>
        rw [h0, hend]
        exact buildH_node_zero s opts.directions false (some v) n
      | rel r =>
        rw [h0, hend]
        exact buildH_rel_zero_noend s opts.directions (some v) r
  · intro hend
    rw [searchAndTraverse]
    cases hp : pickTopMatches s q opts with
    | error e => rfl
    | ok tops =>
      simp only [Except.map]
      congr 1
      refine List.map_congr_left ?_
      intro m _
      obtain ⟨ent, v⟩ := m
      cases ent with
      | node n =>
        rw [h0, hend]
        exact buildH_node_zero s opts.directions true (some v) n
      | rel r =>
        rw [h0, hend]
        exact buildH_rel_zero_end s opts.directions (some v) r

/-- Witness: the C8 theorem applied to the empty store with `hops = 0`. -/
theorem searchAndTraverse_hops_zero_witness :
    (({ hops := 0 } : SearchTraverseOptions).hops = 0) ∧
    searchAndTraverse (GraphState.mk [] [] [] 0) (some (JValue.arr [JValue.num 1]))
      { hops := 0 } = .ok [] := by
  have h := searchAndTraverse_hops_zero (GraphState.mk [] [] [] 0)
    (some (JValue.arr [JValue.num 1])) { hops := 0 } rfl
  refine ⟨rfl, ?_⟩
  rw [h.1 rfl]
  rfl
